import Mathlib

/-!
Verification development for the akasa-insight repository.

The Python source is embedded shallowly:

* `src/utils/helpers.py` (`DataHelpers`) becomes pure Lean functions over a
  small model `Value` of the Python values that flow through the helpers
  (`None`, strings, ints, `datetime` objects).
* `src/database/load_data.py` (`DataLoader`) becomes explicit state passing
  over a model of a SQLAlchemy session with `autoflush=False` (see
  `db_setup.py` line 96): `session.add` only appends to the pending list,
  uniqueness constraints are checked when the pending inserts are flushed by
  `session.commit()`, and `session.rollback()` discards every pending insert.
* the three KPI backends (`sql_queries.py`, `pandas_processing.py`,
  `dask_processing.py`) become list-processing pipelines over a snapshot of
  customer and order rows.  Monetary floats are modelled as exact rationals
  (every backend applies the same Python `round(_, 2)`), and `datetime.now()`
  based cutoffs are passed as an explicit parameter, fixing the clock.
* `flows/daily_ingestion.py` becomes a per-file fold for the schema pre-check
  and reject-artifact behaviour.
-/

deriving instance DecidableEq for Except

namespace Akasa

/-- Model of `datetime.datetime`: the seven fields used by this code base. -/
structure DateTime where
  year : Nat
  month : Nat
  day : Nat
  hour : Nat
  minute : Nat
  second : Nat
  microsecond : Nat
deriving DecidableEq, Repr, Inhabited

/-- Python values that appear as record fields in this code base. -/
inductive Value where
  | none
  | str (s : String)
  | int (i : Int)
  | dt (d : DateTime)
deriving DecidableEq, Repr

/-- Characters stripped by Python `str.strip()` (ASCII whitespace). -/
def pyIsSpace (c : Char) : Bool :=
  c = ' ' || c = '\t' || c = '\n' || c = '\r' || c = '\x0b' || c = '\x0c'

/-- Model of Python `str.strip()`. -/
def pyStrip (l : List Char) : List Char :=
  ((l.dropWhile pyIsSpace).reverse.dropWhile pyIsSpace).reverse

/-- Zero padding matching Python `%0wd`-style formatting, as a char list. -/
def padToL (w : Nat) (n : Nat) : List Char :=
  List.replicate (w - (toString n).length) '0' ++ (toString n).data

/-- Model of Python `str(datetime)` (only non-blankness matters here). -/
def DateTime.pyRepr (d : DateTime) : String :=
  ⟨padToL 4 d.year ++ '-' :: (padToL 2 d.month ++ '-' :: (padToL 2 d.day ++ ' ' ::
    (padToL 2 d.hour ++ ':' :: (padToL 2 d.minute ++ ':' :: (padToL 2 d.second ++
    (if d.microsecond = 0 then [] else '.' :: padToL 6 d.microsecond))))))⟩

/-- Model of `datetime.strftime` with format string `%Y-%m-%d` (used for
    `last_order_date` in the top-spenders KPI). -/
def DateTime.fmtDate (d : DateTime) : String :=
  ⟨padToL 4 d.year ++ '-' :: (padToL 2 d.month ++ '-' :: padToL 2 d.day)⟩

/-- Model of Python `str(v)` for the values of this code base. -/
def pyStr : Value → String
  | .none => "None"
  | .str s => s
  | .int i => toString i
  | .dt d => d.pyRepr

/-- Association-list lookup (model of a Python dict built from a literal). -/
def alookup {κ β : Type} [DecidableEq κ] (k : κ) : List (κ × β) → Option β
  | [] => Option.none
  | (k₁, v) :: rest => if k = k₁ then some v else alookup k rest

/-- Embeds `DataHelpers.clean_string` (helpers.py lines 122-137). -/
def cleanString (v : Value) : Option String :=
  if v = .none then Option.none
  else if (pyStrip (pyStr v).data).isEmpty then Option.none
  else some ⟨pyStrip (pyStr v).data⟩

/-- The digit string `re.sub` leaves of `str(mobile).strip()`: every
    non-digit character removed. -/
def mobileDigits (v : Value) : List Char :=
  (pyStrip (pyStr v).data).filter Char.isDigit

/-- Embeds `DataHelpers.normalize_mobile_number` (helpers.py lines 58-80):
    `None`/`''` give `None`; otherwise every non-digit character is removed;
    ten or more remaining digits give the last ten, one to nine digits are
    returned as they are, and zero digits give `None`. -/
def normalizeMobile (v : Value) : Option String :=
  if v = .none ∨ v = .str "" then Option.none
  else if 10 ≤ (mobileDigits v).length then
    some ⟨(mobileDigits v).drop ((mobileDigits v).length - 10)⟩
  else if (mobileDigits v).isEmpty then Option.none
  else some ⟨mobileDigits v⟩

/-- Results of Python `float(_)`: a finite value (modelled exactly as a
    rational), an infinity, or a NaN. -/
inductive PyFloat where
  | fin (q : ℚ)
  | inf
  | ninf
  | nan
deriving DecidableEq, Repr

/-- Checks the CPython rule that an underscore in a numeric literal must sit
    between two digits. -/
def underscoresOkFrom : Option Char → List Char → Bool
  | _, [] => true
  | prev, '_' :: rest =>
    (match prev with
      | some p => p.isDigit
      | Option.none => false) &&
    (match rest with
      | n :: _ => n.isDigit
      | [] => false) &&
    underscoresOkFrom (some '_') rest
  | _, c :: rest => underscoresOkFrom (some c) rest

/-- Numeric value of a digit string. -/
def natOfDigits (l : List Char) : Nat :=
  l.foldl (fun a c => a * 10 + (c.toNat - 48)) 0

/-- Symbolic result of a successful `float(str)` parse: the sign, the integer
    part, the fraction digits with their count, and the decimal exponent (or
    an infinity or NaN). -/
inductive PyLit where
  | fin (sign : Int) (ip : Nat) (frac : Nat) (fracLen : Nat) (exp : Int)
  | inf (sign : Int)
  | nan
deriving DecidableEq, Repr

/-- Model of the CPython `float(str)` literal grammar: optional surrounding
    whitespace, optional sign, then `inf`/`infinity`/`nan` (case-insensitive)
    or a decimal literal with optional fraction and exponent, kept
    symbolically as its decimal components. -/
def pyLitOfString (s : String) : Option PyLit :=
  let l₀ := (pyStrip s.data).map Char.toLower
  if underscoresOkFrom Option.none l₀ = false then Option.none else
  let l₁ := l₀.filter (fun c => c ≠ '_')
  let sg : Int × List Char :=
    match l₁ with
    | '+' :: r => (1, r)
    | '-' :: r => (-1, r)
    | r => (1, r)
  let sign := sg.1
  let l := sg.2
  if l = "inf".data ∨ l = "infinity".data then some (.inf sign)
  else if l = "nan".data then some .nan
  else
    let ip := l.takeWhile Char.isDigit
    let r₁ := l.dropWhile Char.isDigit
    let fr : Option (List Char) × List Char :=
      match r₁ with
      | '.' :: r => (some (r.takeWhile Char.isDigit), r.dropWhile Char.isDigit)
      | _ => (Option.none, r₁)
    let fp := fr.1
    let r₂ := fr.2
    if ip.isEmpty && (match fp with | some f => f.isEmpty | Option.none => true) then
      Option.none
    else
      let frac : Nat × Nat :=
        match fp with
        | some f => (natOfDigits f, f.length)
        | Option.none => (0, 0)
      match r₂ with
      | [] => some (.fin sign (natOfDigits ip) frac.1 frac.2 0)
      | 'e' :: r =>
        let es : Int × List Char :=
          match r with
          | '+' :: t => (1, t)
          | '-' :: t => (-1, t)
          | t => (1, t)
        let ed := es.2.takeWhile Char.isDigit
        let rest := es.2.dropWhile Char.isDigit
        if ed.isEmpty ∨ rest ≠ [] then Option.none
        else some (.fin sign (natOfDigits ip) frac.1 frac.2 (es.1 * (natOfDigits ed : Int)))
      | _ => Option.none

/-- The exact rational value of a finite parsed literal (binary-double
    rounding of CPython is abstracted away; no claim below depends on a value
    within half an ulp of a boundary). -/
def PyLit.toPyFloat : PyLit → PyFloat
  | .fin sign ip frac fracLen exp =>
    .fin ((sign : ℚ) * ((ip : ℚ) + (frac : ℚ) / (10 : ℚ) ^ fracLen) * (10 : ℚ) ^ exp)
  | .inf sign => if sign = 1 then .inf else .ninf
  | .nan => .nan

/-- Truncation toward zero of a finite parsed literal, in integer arithmetic:
    the value of `int(float(s))`. -/
def PyLit.truncFin (sign : Int) (ip frac fracLen : Nat) (exp : Int) : Int :=
  let n := ip * 10 ^ fracLen + frac
  let mag : Nat :=
    if 0 ≤ exp then n * 10 ^ exp.toNat / 10 ^ fracLen
    else n / 10 ^ (fracLen + (-exp).toNat)
  sign * (mag : Int)

def pyFloatOfString (s : String) : Option PyFloat :=
  (pyLitOfString s).map PyLit.toPyFloat

/-- Embeds `DataHelpers.safe_float` (helpers.py lines 82-100) at its only call
    pattern, default `0.0`: `None`/`''` give the default, a failed parse
    (`ValueError`) gives the default, and `float(str)` itself never raises on
    other strings. -/
def safeFloat (v : Value) : PyFloat :=
  if v = .none ∨ v = .str "" then .fin 0
  else match v with
    | .str s => (pyFloatOfString s).getD (.fin 0)
    | .int i => .fin (i : ℚ)
    | _ => .fin 0

/-- Embeds `DataHelpers.safe_int` (helpers.py lines 102-120) at default `0`:
    `int(float(value))`.  A failed `float` parse raises `ValueError`, and
    `int(nan)` raises `ValueError` — both are caught, giving the default.
    `int(inf)` raises `OverflowError`, which the `except (ValueError,
    TypeError)` clause does not catch, so it escapes to the caller: that case
    is `Except.error`. -/
def safeIntCore (s : String) : Except Unit Int :=
  match pyLitOfString s with
  | Option.none => .ok 0
  | some (.fin sign ip frac fracLen exp) => .ok (PyLit.truncFin sign ip frac fracLen exp)
  | some (.inf _) => .error ()
  | some .nan => .ok 0

def safeIntE (v : Value) : Except Unit Int :=
  if v = .none ∨ v = .str "" then .ok 0
  else match v with
    | .str s => safeIntCore s
    | .int i => .ok i
    | _ => .ok 0

/-- True when `data[field] is None or str(data[field]).strip() == ''`. -/
def isBlank : Value → Bool
  | .none => true
  | v => (pyStrip (pyStr v).data).isEmpty

/-- Embeds `DataHelpers.validate_required_fields` (helpers.py lines 139-157):
    returns the pass flag together with the required fields that are absent,
    `None`, or blank after string coercion and strip, in required-list order. -/
def validateRequiredFields (data : List (String × Value)) (required : List String) :
    Bool × List String :=
  let missing := required.filter (fun f =>
    match alookup f data with
    | Option.none => true
    | some v => isBlank v)
  (missing.isEmpty, missing)

/-! Model of `datetime.strptime` for the twelve fixed formats tried by
    `DataHelpers.normalize_date` (helpers.py lines 33-46).  CPython compiles a
    format into one regular expression (`_strptime.TimeRE`) and anchors it at
    the start of the input: each directive becomes an ordered alternation of
    digit patterns, whitespace in the format becomes `\s+`, and alternation
    backtracks when a later token fails.  A successful match with unconverted
    trailing input raises `ValueError`, i.e. fails that format.  The
    `datetime` constructor then validates year/day-of-month/second ranges. -/

/-- Tokens of a strptime format: a literal character, a whitespace run, or one
    of the directives used by the helpers' format list. -/
inductive FTok where
  | lit (c : Char)
  | ws
  | fY
  | fm
  | fd
  | fH
  | fM
  | fS
  | ff
deriving DecidableEq, Repr

/-- Partially parsed timestamp fields with the strptime defaults. -/
structure PFields where
  y : Nat
  mo : Nat
  d : Nat
  h : Nat
  mi : Nat
  s : Nat
  us : Nat
deriving DecidableEq, Repr

def PFields.init : PFields := ⟨1900, 1, 1, 0, 0, 0, 0⟩

/-- Character range test used by the digit patterns. -/
def chBetween (lo hi c : Char) : Bool := lo ≤ c && c ≤ hi

/-- Matches a fixed sequence of character classes against a prefix. -/
def matchClasses : List (Char → Bool) → List Char → Option (List Char × List Char)
  | [], s => some ([], s)
  | _ :: _, [] => Option.none
  | p :: ps, c :: s =>
    if p c then (matchClasses ps s).map (fun r => (c :: r.1, r.2)) else Option.none

/-- Alternation for `%Y` in CPython: exactly four digits. -/
def yAlts : List (List (Char → Bool)) := [[Char.isDigit, Char.isDigit, Char.isDigit, Char.isDigit]]

/-- Alternation for `%m`: `1[0-2]|0[1-9]|[1-9]`. -/
def mAlts : List (List (Char → Bool)) :=
  [[(· = '1'), chBetween '0' '2'], [(· = '0'), chBetween '1' '9'], [chBetween '1' '9']]

/-- Alternation for `%d`: `3[01]|[12]\d|0[1-9]|[1-9]`. -/
def dAlts : List (List (Char → Bool)) :=
  [[(· = '3'), fun c => c = '0' || c = '1'],
   [fun c => c = '1' || c = '2', Char.isDigit],
   [(· = '0'), chBetween '1' '9'],
   [chBetween '1' '9']]

/-- Alternation for `%H`: `2[0-3]|[0-1]\d|\d`. -/
def hAlts : List (List (Char → Bool)) :=
  [[(· = '2'), chBetween '0' '3'], [fun c => c = '0' || c = '1', Char.isDigit], [Char.isDigit]]

/-- Alternation for `%M`: `[0-5]\d|\d`. -/
def minAlts : List (List (Char → Bool)) :=
  [[chBetween '0' '5', Char.isDigit], [Char.isDigit]]

/-- Alternation for `%S`: `6[0-1]|[0-5]\d|\d` (leap seconds pass the regex and
    are rejected later by the `datetime` constructor). -/
def sAlts : List (List (Char → Bool)) :=
  [[(· = '6'), fun c => c = '0' || c = '1'], [chBetween '0' '5', Char.isDigit], [Char.isDigit]]

/-- Alternation for `%f`: `\d{1,6}`, greedy. -/
def usAlts : List (List (Char → Bool)) :=
  [6, 5, 4, 3, 2, 1].map (fun n => List.replicate n Char.isDigit)

/-- Field update and valuation for each directive (`%f` right-pads to
    microseconds). -/
def tokAlts : FTok → List (List (Char → Bool))
  | .fY => yAlts
  | .fm => mAlts
  | .fd => dAlts
  | .fH => hAlts
  | .fM => minAlts
  | .fS => sAlts
  | .ff => usAlts
  | _ => []

def tokVal : FTok → List Char → Nat
  | .ff, cs => natOfDigits cs * 10 ^ (6 - cs.length)
  | _, cs => natOfDigits cs

def tokSet : FTok → PFields → Nat → PFields
  | .fY, f, v => { f with y := v }
  | .fm, f, v => { f with mo := v }
  | .fd, f, v => { f with d := v }
  | .fH, f, v => { f with h := v }
  | .fM, f, v => { f with mi := v }
  | .fS, f, v => { f with s := v }
  | .ff, f, v => { f with us := v }
  | _, f, _ => f

/-- Runs a token list against the input with the backtracking of regex
    alternation: a directive's alternatives are tried in regex order, moving
    to the next alternative when the rest of the token list fails.  A literal
    compares case-insensitively (the compiled regex uses `IGNORECASE`); a
    whitespace token consumes a maximal nonempty whitespace run (`\s+`;
    maximal munch agrees with backtracking here since every following token
    starts with a digit). -/
def runToks : List FTok → List Char → PFields → Option (PFields × List Char)
  | [], s, f => some (f, s)
  | .lit c :: ts, s, f =>
    match s with
    | c₁ :: s₁ => if c₁.toLower = c.toLower then runToks ts s₁ f else Option.none
    | [] => Option.none
  | .ws :: ts, s, f =>
    match s with
    | c₁ :: _ => if pyIsSpace c₁ then runToks ts (s.dropWhile pyIsSpace) f else Option.none
    | [] => Option.none
  | tok :: ts, s, f =>
    (tokAlts tok).findSome? (fun alt =>
      match matchClasses alt s with
      | some r => runToks ts r.2 (tokSet tok f (tokVal tok r.1))
      | Option.none => Option.none)

/-- Day count of a month in the proleptic Gregorian calendar (Python
    `calendar`/`datetime` rule). -/
def daysInMonth (y m : Nat) : Nat :=
  if m = 2 then (if y % 4 = 0 ∧ (y % 100 ≠ 0 ∨ y % 400 = 0) then 29 else 28)
  else if m = 4 ∨ m = 6 ∨ m = 9 ∨ m = 11 then 30 else 31

/-- Validation done by the `datetime` constructor on the fields produced by a
    regex match (the regex already bounds month, day, hour and minute). -/
def mkDatetime (f : PFields) : Option DateTime :=
  if 1 ≤ f.y ∧ f.y ≤ 9999 ∧ 1 ≤ f.mo ∧ f.mo ≤ 12 ∧ 1 ≤ f.d ∧ f.d ≤ daysInMonth f.y f.mo ∧
      f.h ≤ 23 ∧ f.mi ≤ 59 ∧ f.s ≤ 59 ∧ f.us ≤ 999999 then
    some ⟨f.y, f.mo, f.d, f.h, f.mi, f.s, f.us⟩
  else Option.none

/-- Model of `datetime.strptime(s, fmt)` for one format: anchored match,
    failure when unconverted data remains, then constructor validation. -/
def strptime (fmt : List FTok) (s : List Char) : Option DateTime :=
  match runToks fmt s .init with
  | some (f, []) => mkDatetime f
  | _ => Option.none

/-- Format `%Y-%m-%d %H:%M:%S`. -/
def fmt01 : List FTok := [.fY, .lit '-', .fm, .lit '-', .fd, .ws, .fH, .lit ':', .fM, .lit ':', .fS]

/-- Format `%Y-%m-%d %H:%M:%S.%f`. -/
def fmt02 : List FTok := fmt01 ++ [.lit '.', .ff]

/-- Format `%Y-%m-%d`. -/
def fmt03 : List FTok := [.fY, .lit '-', .fm, .lit '-', .fd]

/-- Format `%d/%m/%Y %H:%M:%S`. -/
def fmt04 : List FTok := [.fd, .lit '/', .fm, .lit '/', .fY, .ws, .fH, .lit ':', .fM, .lit ':', .fS]

/-- Format `%d/%m/%Y`. -/
def fmt05 : List FTok := [.fd, .lit '/', .fm, .lit '/', .fY]

/-- Format `%d-%m-%Y %H:%M:%S`. -/
def fmt06 : List FTok := [.fd, .lit '-', .fm, .lit '-', .fY, .ws, .fH, .lit ':', .fM, .lit ':', .fS]

/-- Format `%d-%m-%Y`. -/
def fmt07 : List FTok := [.fd, .lit '-', .fm, .lit '-', .fY]

/-- Format `%Y/%m/%d %H:%M:%S`. -/
def fmt08 : List FTok := [.fY, .lit '/', .fm, .lit '/', .fd, .ws, .fH, .lit ':', .fM, .lit ':', .fS]

/-- Format `%Y/%m/%d`. -/
def fmt09 : List FTok := [.fY, .lit '/', .fm, .lit '/', .fd]

/-- Format `%Y%m%d`. -/
def fmt10 : List FTok := [.fY, .fm, .fd]

/-- Format `%Y-%m-%dT%H:%M:%S`. -/
def fmt11 : List FTok := [.fY, .lit '-', .fm, .lit '-', .fd, .lit 'T', .fH, .lit ':', .fM, .lit ':', .fS]

/-- Format `%Y-%m-%dT%H:%M:%S.%f`. -/
def fmt12 : List FTok := fmt11 ++ [.lit '.', .ff]

/-- The format list of `DataHelpers.normalize_date`, in source order
    (helpers.py lines 33-46). -/
def dateFormats : List (List FTok) :=
  [fmt01, fmt02, fmt03, fmt04, fmt05, fmt06, fmt07, fmt08, fmt09, fmt10, fmt11, fmt12]

/-- Embeds `DataHelpers.normalize_date` (helpers.py lines 15-56): `None`/`''`
    give `None`, a `datetime` value is returned unchanged, otherwise the
    stripped string form is tried against each format in order and the first
    successful parse is returned, `None` when every format fails. -/
def normalizeDate (v : Value) : Option DateTime :=
  if v = .none ∨ v = .str "" then Option.none
  else match v with
    | .dt d => some d
    | v => dateFormats.findSome? (fun f => strptime f (pyStrip (pyStr v).data))

/-! Model of `DataLoader` (load_data.py).  Sessions come from a factory with
    `autoflush=False` (db_setup.py line 96), so `session.add` only registers a
    pending insert and cannot raise `IntegrityError`; the pending inserts are
    flushed — and uniqueness constraints checked — by `session.commit()`, and
    `session.rollback()` discards every pending insert of the open
    transaction.  A failing flush leaves the committed table unchanged. -/

/-- Wraps a CSV/XML field (`row.get(...)` / element text) as a Python value:
    a missing field is `None`. -/
def optVal : Option String → Value
  | Option.none => .none
  | some s => .str s

/-- Wraps an optional normalized string result as a Python value. -/
def optStrVal : Option String → Value
  | Option.none => .none
  | some s => .str s

/-- Wraps an optional normalized datetime result as a Python value. -/
def optDtVal : Option DateTime → Value
  | Option.none => .none
  | some d => .dt d

/-- A row of the `customers` table as created by the loader (the surrogate
    `customer_id` and `created_at` are assigned by the store and play no role
    in the loading claims). -/
structure DBCustomer where
  customer_name : String
  mobile_number : String
  region : String
deriving DecidableEq, Repr

/-- A raw CSV customer row: each named column is present with a text value or
    absent. -/
structure RawCustomer where
  customer_name : Option String
  mobile_number : Option String
  region : Option String
deriving DecidableEq, Repr

/-- In-flight loop state of one load call: the pending (uncommitted) inserts
    of the open transaction plus the two counters. -/
structure LoadAcc (α : Type) where
  pending : List α
  loaded : Nat
  skipped : Nat
deriving DecidableEq, Repr

/-- Result of one load call: the committed table, the counters, and whether
    the file-level `session.commit()` raised (in which case the outer handler
    rolls back and re-raises, leaving the table unchanged). -/
structure LoadResult (α : Type) where
  db : List α
  loaded : Nat
  skipped : Nat
  raised : Bool
deriving DecidableEq, Repr

/-- Per-row body of `load_customers_from_csv` (load_data.py lines 59-88):
    clean/normalize the three fields, validate them, and hand back the
    customer object to add, or `none` when the row is skipped as invalid.
    No expression in this body can raise, so the two `except` arms of the
    source are unreachable for customer rows. -/
def custRecord (row : RawCustomer) : Option DBCustomer :=
  let name := cleanString (optVal row.customer_name)
  let mob := normalizeMobile (optVal row.mobile_number)
  let reg := cleanString (optVal row.region)
  let v := validateRequiredFields
    [("customer_name", optStrVal name), ("mobile_number", optStrVal mob),
     ("region", optStrVal reg)]
    ["customer_name", "mobile_number", "region"]
  if v.1 then some ⟨name.getD "", mob.getD "", reg.getD ""⟩ else Option.none

/-- Embeds `DataLoader.load_customers_from_csv` (load_data.py lines 34-116)
    on an already-parsed row list against a committed table `db`: rows are
    validated and added as pending inserts, then the single file-level commit
    flushes them, raising when a flushed `mobile_number` duplicates an
    existing or earlier-flushed one. -/
def loadCustomers (rows : List RawCustomer) (db : List DBCustomer) : LoadResult DBCustomer :=
  let acc := rows.foldl (fun (acc : LoadAcc DBCustomer) row =>
    match custRecord row with
    | some c => { acc with pending := acc.pending ++ [c], loaded := acc.loaded + 1 }
    | Option.none => { acc with skipped := acc.skipped + 1 }) ⟨[], 0, 0⟩
  if (db.map (·.mobile_number) ++ acc.pending.map (·.mobile_number)).Nodup then
    ⟨db ++ acc.pending, acc.loaded, acc.skipped, false⟩
  else
    ⟨db, acc.loaded, acc.skipped, true⟩

/-- A row of the `orders` table as created by the loader. -/
structure DBOrder where
  order_id : Int
  mobile_number : String
  order_date_time : DateTime
  sku_id : String
  sku_count : Int
  total_amount : PyFloat
deriving DecidableEq, Repr

/-- A raw XML `order` element: each child element's text, or absent. -/
structure RawOrder where
  order_id : Option String
  mobile_number : Option String
  order_date_time : Option String
  sku_id : Option String
  sku_count : Option String
  total_amount : Option String
deriving DecidableEq, Repr

/-- Outcome of processing one `order` element inside the loop. -/
inductive OrderStep where
  | added (o : DBOrder)
  | skippedInvalid
  | recordError
deriving DecidableEq, Repr

/-- Per-element body of `load_orders_from_xml` (load_data.py lines 143-186):
    extraction (where `safe_int` can raise `OverflowError`, reaching the
    generic `except Exception` arm), validation, the explicit
    `order_id == 0` skip, and the add. -/
def orderRecord (row : RawOrder) : OrderStep :=
  match safeIntE (optVal row.order_id) with
  | .error _ => .recordError
  | .ok oid =>
    let mob := normalizeMobile (optVal row.mobile_number)
    let odt := normalizeDate (optVal row.order_date_time)
    let sku := cleanString (optVal row.sku_id)
    match safeIntE (optVal row.sku_count) with
    | .error _ => .recordError
    | .ok skuc =>
      let amt := safeFloat (optVal row.total_amount)
      let v := validateRequiredFields
        [("order_id", .int oid), ("mobile_number", optStrVal mob),
         ("order_date_time", optDtVal odt), ("sku_id", optStrVal sku)]
        ["order_id", "mobile_number", "order_date_time", "sku_id"]
      if v.1 = false ∨ oid = 0 then .skippedInvalid
      else .added ⟨oid, mob.getD "", odt.getD default, sku.getD "", skuc, amt⟩

/-- Embeds `DataLoader.load_orders_from_xml` (load_data.py lines 118-214) on
    an already-parsed element list.  A record-level unexpected error runs
    `session.rollback()`, which discards all pending inserts of the file so
    far, then continues; the single file-level commit flushes the surviving
    pending inserts, raising on a duplicate `order_id`. -/
def loadOrders (rows : List RawOrder) (db : List DBOrder) : LoadResult DBOrder :=
  let acc := rows.foldl (fun (acc : LoadAcc DBOrder) row =>
    match orderRecord row with
    | .added o => { acc with pending := acc.pending ++ [o], loaded := acc.loaded + 1 }
    | .skippedInvalid => { acc with skipped := acc.skipped + 1 }
    | .recordError => { acc with pending := [], skipped := acc.skipped + 1 }) ⟨[], 0, 0⟩
  if (db.map (·.order_id) ++ acc.pending.map (·.order_id)).Nodup then
    ⟨db ++ acc.pending, acc.loaded, acc.skipped, false⟩
  else
    ⟨db, acc.loaded, acc.skipped, true⟩

/-! Model of the daily ingestion flow (flows/daily_ingestion.py): the schema
    pre-check, the reject artifact and the per-file loop. -/

/-- Substring containment (Python `needle in content`). -/
def containsSub (needle : List Char) : List Char → Bool
  | [] => needle.isEmpty
  | c :: rest => needle.isPrefixOf (c :: rest) || containsSub needle rest

/-- A discovered incoming file for the flow.  A CSV's schema check is
    `pd.read_csv(path, nrows=5)` succeeding, which is library behaviour
    summarized by the `readable` flag; an XML's content is kept verbatim for
    the structural sniff; `other` stands for an unsupported suffix. -/
inductive FileKind where
  | csv (readable : Bool)
  | xml (content : String)
  | other
deriving DecidableEq, Repr

structure InFile where
  name : String
  kind : FileKind
deriving DecidableEq, Repr

/-- Embeds `validate_file_schema` (daily_ingestion.py lines 69-103): CSV
    passes iff the sample read succeeds, XML passes iff the content contains
    both `<orders>` and `</orders>`, anything else fails. -/
def validateFileSchema (f : InFile) : Bool :=
  match f.kind with
  | .csv readable => readable
  | .xml content =>
    containsSub "<orders>".data content.data && containsSub "</orders>".data content.data
  | .other => false

/-- The reject artifact written by `handle_rejected_records`
    (daily_ingestion.py lines 186-225), restricted to the fields the claims
    mention: file name, reason, and count of attached records. -/
structure RejectArtifact where
  fileName : String
  reason : String
  rejectedCount : Nat
deriving DecidableEq, Repr

/-- Embeds the per-file loop of `daily_ingestion_flow` (daily_ingestion.py
    lines 256-281): a file failing the schema pre-check produces a reject
    artifact with reason `Schema validation failed` and an empty record list,
    and is skipped; every other file goes on to `process_incremental_load`.
    The first component lists the files that reached the load step, in run
    order. -/
def ingestStep (acc : List String × List RejectArtifact) (f : InFile) :
    List String × List RejectArtifact :=
  if validateFileSchema f then (acc.1 ++ [f.name], acc.2)
  else (acc.1, acc.2 ++ [⟨f.name, "Schema validation failed", 0⟩])

def dailyIngestionFlow (files : List InFile) : List String × List RejectArtifact :=
  files.foldl ingestStep ([], [])

/-! Model of the KPI engine (sql_queries.py, pandas_processing.py,
    dask_processing.py) over a fixed snapshot of loaded customer and order
    rows.  Monetary values are exact rationals; every backend applies the
    same `round(_, 2)` model.  `datetime.now() - timedelta(days=days)` is
    passed as an explicit `cutoff` (the claims fix the clock).  Group order
    before the final sort is modelled as first-appearance order; the sources
    leave it unspecified (MySQL `GROUP BY`) or re-sort afterwards (pandas),
    and every consumer below either re-sorts by a total key or looks groups
    up by key, so only the final, explicitly ordered output is compared. -/

/-- A loaded customer row as the KPI queries see it. -/
structure Customer where
  customer_id : Nat
  customer_name : String
  mobile_number : String
  region : String
deriving DecidableEq, Repr

/-- A loaded order row as the KPI queries see it. -/
structure Order where
  order_id : Int
  mobile_number : String
  order_date_time : DateTime
  sku_id : String
  sku_count : Int
  total_amount : ℚ
deriving DecidableEq, Repr

/-- Lexicographic comparison of equal-length numeric keys (Python tuple and
    `datetime` comparison). -/
def lexLe : List Nat → List Nat → Bool
  | [], _ => true
  | _ :: _, [] => false
  | a :: as, b :: bs => if a < b then true else if a = b then lexLe as bs else false

/-- The comparison key of a `datetime`. -/
def DateTime.key (d : DateTime) : List Nat :=
  [d.year, d.month, d.day, d.hour, d.minute, d.second, d.microsecond]

/-- Python `a <= b` on datetimes. -/
def dtLeB (a b : DateTime) : Bool := lexLe a.key b.key

/-- The maximum of a list of datetimes (`MAX(order_date_time)` / pandas
    `max`); the empty case never arises below. -/
def dtMax (l : List DateTime) : DateTime :=
  match l with
  | [] => default
  | d :: rest => rest.foldl (fun acc x => if lexLe acc.key x.key then x else acc) d

/-- Shared model of Python `round(q, 2)` (ties at half a cent are rounded
    up; CPython rounds the nearest double to even there, a sub-cent
    difference no claim depends on). -/
def round2 (q : ℚ) : ℚ := (⌊q * 100 + 1 / 2⌋ : ℚ) / 100

/-- First-appearance deduplication (accumulator form). -/
def dedupFAux {α : Type} [DecidableEq α] (seen : List α) : List α → List α
  | [] => []
  | a :: l => if a ∈ seen then dedupFAux seen l else a :: dedupFAux (a :: seen) l

def dedupF {α : Type} [DecidableEq α] (l : List α) : List α := dedupFAux [] l

/-- Insertion sort by a Boolean comparison.  The source sorts (`ORDER BY
    ... DESC` in MySQL, `sort_values` with numpy quicksort) leave the
    relative order of equal keys unspecified; this stable sort is one
    refinement of them, so only tie-robust statements — membership, field
    values, pairwise order, multiset equality, or sequence equality where
    the sort keys are pairwise distinct — are asserted about the program. -/
def sortB {α : Type} (le : α → α → Bool) (l : List α) : List α :=
  @List.insertionSort α (fun a b => le a b = true) (fun a b => instDecidableEqBool (le a b) true) l

/-- The group keys of a collection, in first-appearance order. -/
def keysFA {α K : Type} [DecidableEq K] (key : α → K) (l : List α) : List K :=
  dedupF (l.map key)

/-- The orders carrying a given mobile number. -/
def ordersFor (os : List Order) (m : String) : List Order :=
  os.filter (fun o => o.mobile_number == m)

/-- Sum of `total_amount` over a group. -/
def sumAmounts (l : List Order) : ℚ := (l.map (fun o => o.total_amount)).sum

/-! Repeat customers. -/

/-- A `get_repeat_customers` result row (all three backends). -/
structure RepeatRow where
  customer_id : Nat
  customer_name : String
  mobile_number : String
  region : String
  order_count : Nat
deriving DecidableEq, Repr

/-- Descending order count (`ORDER BY order_count DESC` /
    `sort_values('order_count', ascending=False)`). -/
def repeatDesc (a b : RepeatRow) : Bool := decide (b.order_count ≤ a.order_count)

/-- `SQLAnalytics.get_repeat_customers` (sql_queries.py lines 30-81): join
    Customer to Order on `mobile_number`, group by the customer columns
    (one group per customer, the primary key being unique), `HAVING
    COUNT(order_id) > 1`, order by count descending (tie order
    engine-unspecified; see `sortB`). -/
def sqlRepeatBase (cs : List Customer) (os : List Order) : List RepeatRow :=
  cs.filterMap (fun c =>
    let n := (ordersFor os c.mobile_number).length
    if 1 < n then some ⟨c.customer_id, c.customer_name, c.mobile_number, c.region, n⟩
    else Option.none)

def sqlRepeat (cs : List Customer) (os : List Order) : List RepeatRow :=
  sortB repeatDesc (sqlRepeatBase cs os)

/-- Pandas `groupby('mobile_number').size()`: one count per mobile. -/
def countBy (os : List Order) : List (String × Nat) :=
  (keysFA (fun o => o.mobile_number) os).map (fun m => (m, (ordersFor os m).length))

/-- `PandasAnalytics.get_repeat_customers` (pandas_processing.py lines
    129-162): count orders per mobile, filter counts `> 1`, inner-merge into
    the customers frame (customers-major order), sort by count descending. -/
def pandasRepeatBase (cs : List Customer) (os : List Order) : List RepeatRow :=
  let repeatCounts := (countBy os).filter (fun p => 1 < p.2)
  cs.filterMap (fun c =>
    (alookup c.mobile_number repeatCounts).map (fun n =>
      ⟨c.customer_id, c.customer_name, c.mobile_number, c.region, n⟩))

def pandasRepeat (cs : List Customer) (os : List Order) : List RepeatRow :=
  sortB repeatDesc (pandasRepeatBase cs os)

/-- Dask `groupby('mobile_number').size()` over partitions: per-partition
    counts merged by summing per key. -/
def daskCountBy (osParts : List (List Order)) : List (String × Nat) :=
  (dedupF (osParts.flatMap (fun p => p.map (fun o => o.mobile_number)))).map
    (fun m => (m, (osParts.map (fun p => (ordersFor p m).length)).sum))

/-- `DaskAnalytics.get_repeat_customers` (dask_processing.py lines 142-179):
    distributed counts, filter `> 1`, compute, merge into the computed
    customers frame, sort by count descending. -/
def daskRepeat (csParts : List (List Customer)) (osParts : List (List Order)) : List RepeatRow :=
  let repeatCounts := (daskCountBy osParts).filter (fun p => 1 < p.2)
  let cs := csParts.flatMap id
  sortB repeatDesc (cs.filterMap (fun c =>
    (alookup c.mobile_number repeatCounts).map (fun n =>
      ⟨c.customer_id, c.customer_name, c.mobile_number, c.region, n⟩)))

/-! Monthly order trends. -/

structure MonthlyRow where
  year : Nat
  month : Nat
  order_count : Nat
  total_revenue : ℚ
deriving DecidableEq, Repr

/-- Ascending (year, month). -/
def monthlyAsc (a b : MonthlyRow) : Bool :=
  decide (a.year < b.year) || (decide (a.year = b.year) && decide (a.month ≤ b.month))

def ym (o : Order) : Nat × Nat := (o.order_date_time.year, o.order_date_time.month)

def ordersInYM (os : List Order) (k : Nat × Nat) : List Order :=
  os.filter (fun o => decide (ym o = k))

/-- `SQLAnalytics.get_monthly_order_trends` (sql_queries.py lines 83-126):
    group orders by year/month, count and sum, order ascending; the Python
    comprehension rounds the sum, with `0` when the sum is falsy. -/
def sqlMonthly (os : List Order) : List MonthlyRow :=
  sortB monthlyAsc ((keysFA ym os).map (fun k =>
    let s := sumAmounts (ordersInYM os k)
    ⟨k.1, k.2, (ordersInYM os k).length, if s = 0 then 0 else round2 s⟩))

/-- `PandasAnalytics.get_monthly_order_trends` (pandas_processing.py lines
    164-197): same grouping, `round(2)` applied unconditionally, sorted
    ascending. -/
def pandasMonthly (os : List Order) : List MonthlyRow :=
  sortB monthlyAsc ((keysFA ym os).map (fun k =>
    ⟨k.1, k.2, (ordersInYM os k).length, round2 (sumAmounts (ordersInYM os k))⟩))

/-- `DaskAnalytics.get_monthly_order_trends` (dask_processing.py lines
    181-215): computes the partitions to one frame, then the same pipeline
    as the pandas backend. -/
def daskMonthly (osParts : List (List Order)) : List MonthlyRow :=
  pandasMonthly (osParts.flatMap id)

/-! Regional revenue. -/

structure RegionalRow where
  region : String
  customer_count : Nat
  order_count : Nat
  total_revenue : ℚ
  avg_order_value : ℚ
deriving DecidableEq, Repr

/-- Pre-rounding aggregate of one region group on the SQL side. -/
structure RegAgg where
  region : String
  customer_count : Nat
  order_count : Nat
  total : ℚ
deriving DecidableEq, Repr

/-- `ORDER BY total_revenue DESC` on the unrounded sum. -/
def regAggDesc (a b : RegAgg) : Bool := decide (b.total ≤ a.total)

/-- The SQL join `Customer JOIN Order ON mobile_number` as pairs, in
    customer-major order. -/
def sqlJoin (cs : List Customer) (os : List Order) : List (Customer × Order) :=
  cs.flatMap (fun c => (ordersFor os c.mobile_number).map (fun o => (c, o)))

/-- `SQLAnalytics.get_regional_revenue` (sql_queries.py lines 128-174):
    group the join by region; count distinct `customer_id`, count rows, sum
    and average `total_amount`; order by the (unrounded) total descending;
    the Python comprehension then rounds, with `0` for falsy values. -/
def sqlRegionalBase (cs : List Customer) (os : List Order) : List RegAgg :=
  let j := sqlJoin cs os
  (keysFA (fun p => p.1.region) j).map (fun k =>
    let g := j.filter (fun p => p.1.region == k)
    ⟨k, (dedupF (g.map (fun p => p.1.customer_id))).length, g.length,
      sumAmounts (g.map Prod.snd)⟩)

def sqlRegional (cs : List Customer) (os : List Order) : List RegionalRow :=
  (sortB regAggDesc (sqlRegionalBase cs os)).map (fun a =>
    ⟨a.region, a.customer_count, a.order_count,
      if a.total = 0 then 0 else round2 a.total,
      if a.total / (a.order_count : ℚ) = 0 then 0 else round2 (a.total / (a.order_count : ℚ))⟩)

/-- The pandas merge `orders.merge(customers[[mobile, region]])`, in
    orders-major order. -/
def pandasMergedRegional (cs : List Customer) (os : List Order) : List (Order × Customer) :=
  os.flatMap (fun o =>
    (cs.filter (fun c => c.mobile_number == o.mobile_number)).map (fun c => (o, c)))

/-- Descending rounded total (`sort_values('total_revenue')` runs after
    `round(2)` in the pandas backend). -/
def regRowDesc (a b : RegionalRow) : Bool := decide (b.total_revenue ≤ a.total_revenue)

/-- `PandasAnalytics.get_regional_revenue` (pandas_processing.py lines
    199-239): merge, group by region, `nunique` of mobile, count, sum and
    mean rounded to 2 decimals, then sort by the rounded total descending. -/
def pandasRegionalRows (cs : List Customer) (os : List Order) : List RegionalRow :=
  let m := pandasMergedRegional cs os
  (keysFA (fun p => p.2.region) m).map (fun k =>
    let g := m.filter (fun p => p.2.region == k)
    ⟨k, (dedupF (g.map (fun p => p.1.mobile_number))).length, g.length,
      round2 (sumAmounts (g.map Prod.fst)),
      round2 (sumAmounts (g.map Prod.fst) / (g.length : ℚ))⟩)

def pandasRegional (cs : List Customer) (os : List Order) : List RegionalRow :=
  sortB regRowDesc (pandasRegionalRows cs os)

/-- `DaskAnalytics.get_regional_revenue` (dask_processing.py lines 217-276):
    computes the partitions to single frames, then the same pipeline as the
    pandas backend. -/
def daskRegional (csParts : List (List Customer)) (osParts : List (List Order)) :
    List RegionalRow :=
  sortB regRowDesc (pandasRegionalRows (csParts.flatMap id) (osParts.flatMap id))

/-- The pandas row of one region key (the group body of
    `pandasRegionalRows`, named for the proofs). -/
def regRowOf (cs : List Customer) (os : List Order) (k : String) : RegionalRow :=
  let g := (pandasMergedRegional cs os).filter (fun p => p.2.region == k)
  ⟨k, (dedupF (g.map (fun p => p.1.mobile_number))).length, g.length,
    round2 (sumAmounts (g.map Prod.fst)),
    round2 (sumAmounts (g.map Prod.fst) / (g.length : ℚ))⟩

/-! Top spenders in a trailing window. -/

structure TopRow where
  customer_id : Nat
  customer_name : String
  mobile_number : String
  region : String
  order_count : Nat
  total_spent : ℚ
  avg_order_value : ℚ
  last_order_date : String
deriving DecidableEq, Repr

/-- Pre-rounding aggregate of one customer's recent orders. -/
structure TopAgg where
  cust : Customer
  order_count : Nat
  total : ℚ
  lastDt : DateTime
deriving DecidableEq, Repr

def topAggDesc (a b : TopAgg) : Bool := decide (b.total ≤ a.total)

def topRowDesc (a b : TopRow) : Bool := decide (b.total_spent ≤ a.total_spent)

/-- The recent-order group of one mobile: `order_date_time >= cutoff`. -/
def recentFor (os : List Order) (cutoff : DateTime) (m : String) : List Order :=
  (ordersFor os m).filter (fun o => dtLeB cutoff o.order_date_time)

/-- `SQLAnalytics.get_top_spenders` (sql_queries.py lines 176-240): join,
    filter to the trailing window, group by customer, aggregate count, sum,
    average and max date, order by unrounded total descending, truncate to
    `limit`, then round and format in the Python comprehension. -/
def sqlTopBase (cs : List Customer) (os : List Order) (cutoff : DateTime) : List TopAgg :=
  cs.filterMap (fun c =>
    let g := recentFor os cutoff c.mobile_number
    if g.isEmpty then Option.none
    else some ⟨c, g.length, sumAmounts g, dtMax (g.map (fun o => o.order_date_time))⟩)

def sqlTop (cs : List Customer) (os : List Order) (cutoff : DateTime) (limit : Nat) :
    List TopRow :=
  ((sortB topAggDesc (sqlTopBase cs os cutoff)).take limit).map (fun a =>
    ⟨a.cust.customer_id, a.cust.customer_name, a.cust.mobile_number, a.cust.region,
      a.order_count,
      if a.total = 0 then 0 else round2 a.total,
      if a.total / (a.order_count : ℚ) = 0 then 0 else round2 (a.total / (a.order_count : ℚ)),
      a.lastDt.fmtDate⟩)

/-- The rounded and formatted row of one aggregate (pandas applies this
    before sorting). -/
def topRowOf (a : TopAgg) : TopRow :=
  ⟨a.cust.customer_id, a.cust.customer_name, a.cust.mobile_number, a.cust.region,
    a.order_count, round2 a.total, round2 (a.total / (a.order_count : ℚ)), a.lastDt.fmtDate⟩

/-- `PandasAnalytics.get_top_spenders` (pandas_processing.py lines 241-292):
    filter to the window, group by mobile with count/sum/mean/max-date,
    inner-merge into customers (customers-major), round the money columns
    and format the date, sort by the rounded total descending, `head(limit)`.
    Defaults in both sources: `days=30`, `limit=10`. -/
def pandasTopBase (cs : List Customer) (os : List Order) (cutoff : DateTime) : List TopAgg :=
  let recent := os.filter (fun o => dtLeB cutoff o.order_date_time)
  let spenders := (keysFA (fun o => o.mobile_number) recent).map (fun m =>
    (m, ((ordersFor recent m).length, sumAmounts (ordersFor recent m),
      dtMax ((ordersFor recent m).map (fun o => o.order_date_time)))))
  cs.filterMap (fun c =>
    (alookup c.mobile_number spenders).map (fun t => ⟨c, t.1, t.2.1, t.2.2⟩))

def pandasTop (cs : List Customer) (os : List Order) (cutoff : DateTime) (limit : Nat) :
    List TopRow :=
  (sortB topRowDesc ((pandasTopBase cs os cutoff).map topRowOf)).take limit

/-- `DaskAnalytics.get_top_spenders` (dask_processing.py lines 278-354):
    computes the partitions to single frames, then the same pipeline as the
    pandas backend. -/
def daskTop (csParts : List (List Customer)) (osParts : List (List Order)) (cutoff : DateTime)
    (limit : Nat) : List TopRow :=
  pandasTop (csParts.flatMap id) (osParts.flatMap id) cutoff limit

/-! Concrete loader inputs for the error-handling claims. -/

/-- One valid customers CSV row. -/
def csvRowAmit : RawCustomer := ⟨some "Amit Sharma", some "9876543210", some "North"⟩

/-- The `order_id` of an accepted record, for inspecting one loop outcome. -/
def OrderStep.addedId : OrderStep → Option Int
  | .added o => some o.order_id
  | _ => Option.none

/-- A valid order element. -/
def xmlOrder1 : RawOrder :=
  ⟨some "1001", some "9876543210", some "2024-10-15 10:30:00", some "SKU001",
    some "2", some "5500.00"⟩

/-- An order element whose `order_id` text makes `safe_int` raise
    `OverflowError` (`int(float('inf'))`), reaching the generic per-record
    `except Exception` handler. -/
def xmlOrderInf : RawOrder :=
  ⟨some "inf", some "9876543211", some "2024-10-16 14:20:00", some "SKU002",
    some "1", some "3200.50"⟩

/-- A second valid order element. -/
def xmlOrder3 : RawOrder :=
  ⟨some "1003", some "9876543210", some "2024-10-20 09:15:00", some "SKU003",
    some "3", some "8750.00"⟩

/-- The family a format belongs to in the claimed `normalize_date` ordering:
    full datetime variants (rank 0), date-only variants (rank 1), the
    compact `%Y%m%d` (rank 2), ISO-with-`T` variants (rank 3).
    Modelled from the spec: this classifies the source's format list by the
    spec's grouping words, to compare the two orders. -/
def fmtSpecRank (f : List FTok) : Nat :=
  if FTok.lit 'T' ∈ f then 3
  else if FTok.fH ∈ f then 0
  else if FTok.lit '-' ∈ f ∨ FTok.lit '/' ∈ f then 1
  else 2

/-- The predicate: a customer of region `k` that has at least one order. -/
def regionHasOrder (os : List Order) (k : String) (c : Customer) : Bool :=
  (c.region == k) && !(ordersFor os c.mobile_number).isEmpty

/-! Concrete snapshots used to instantiate the KPI theorems. -/

/-- The customer snapshot of the worked scenario (four customers, two
    regions shared by the two southern customers). -/
def scCustomers : List Customer :=
  [⟨1, "Amit", "9876543210", "North"⟩,
   ⟨2, "Priya", "9876543211", "West"⟩,
   ⟨3, "Rahul", "9876543212", "South"⟩,
   ⟨4, "Sneha", "9876543213", "South"⟩]

/-- The order snapshot of the worked scenario (five October 2024 orders;
    `3200.50` is the rational `6401/2`). -/
def scOrders : List Order :=
  [⟨1001, "9876543210", ⟨2024, 10, 15, 10, 30, 0, 0⟩, "SKU001", 2, 5500⟩,
   ⟨1002, "9876543211", ⟨2024, 10, 16, 14, 20, 0, 0⟩, "SKU002", 1, 6401 / 2⟩,
   ⟨1003, "9876543210", ⟨2024, 10, 20, 9, 15, 0, 0⟩, "SKU003", 3, 8750⟩,
   ⟨1004, "9876543212", ⟨2024, 10, 22, 16, 45, 0, 0⟩, "SKU001", 1, 2750⟩,
   ⟨1005, "9876543211", ⟨2024, 10, 25, 11, 30, 0, 0⟩, "SKU004", 2, 4500⟩]

/-- A fixed `now - 30 days` for the windowed KPI over the scenario. -/
def scCutoff : DateTime := ⟨2024, 10, 1, 0, 0, 0, 0⟩

/-- Two customers whose single orders have distinct unrounded totals
    (`10.001` and `10.004`) that round to the same 2-decimal value. -/
def cexCustomers : List Customer :=
  [⟨1, "Y", "1110000000", "East"⟩, ⟨2, "X", "2220000000", "West"⟩]

def cexOrders : List Order :=
  [⟨1, "1110000000", ⟨2024, 1, 2, 0, 0, 0, 0⟩, "S", 1, 10001 / 1000⟩,
   ⟨2, "2220000000", ⟨2024, 1, 3, 0, 0, 0, 0⟩, "S", 1, 2501 / 250⟩]

def cexCutoff : DateTime := ⟨2024, 1, 1, 0, 0, 0, 0⟩

/-! Basic lemmas about the string helpers. -/

lemma space_not_digit {c : Char} (h : pyIsSpace c = true) : c.isDigit = false := by
  simp only [pyIsSpace, Bool.or_eq_true, decide_eq_true_eq] at h
  rcases h with ((((h | h) | h) | h) | h) | h <;> subst h <;> decide

lemma filter_dropWhile_space (q : Char → Bool) (hq : ∀ c, pyIsSpace c = true → q c = false)
    (l : List Char) : (l.dropWhile pyIsSpace).filter q = l.filter q := by
  induction l with
  | nil => rfl
  | cons c cs ih =>
    by_cases h : pyIsSpace c = true
    · rw [List.dropWhile_cons_of_pos h, List.filter_cons, hq c h, ih]
      simp
    · rw [List.dropWhile_cons_of_neg (by simpa using h)]

lemma filter_pyStrip (q : Char → Bool) (hq : ∀ c, pyIsSpace c = true → q c = false)
    (l : List Char) : (pyStrip l).filter q = l.filter q := by
  unfold pyStrip
  rw [List.filter_reverse, filter_dropWhile_space q hq, List.filter_reverse,
    List.reverse_reverse, filter_dropWhile_space q hq]

lemma dropWhile_head_false {p : Char → Bool} {l : List Char} :
    ∀ {c : Char} {cs : List Char}, l.dropWhile p = c :: cs → p c = false := by
  induction l with
  | nil => intro c cs h; simp [List.dropWhile] at h
  | cons a l ih =>
    intro c cs h
    by_cases ha : p a = true
    · rw [List.dropWhile_cons_of_pos ha] at h; exact ih h
    · rw [List.dropWhile_cons_of_neg (by simpa using ha)] at h
      cases h
      simpa using ha

lemma pyStrip_mem_nonspace {l : List Char} (h : pyStrip l ≠ []) :
    ∃ c ∈ pyStrip l, pyIsSpace c = false := by
  unfold pyStrip at *
  rcases hB : (l.dropWhile pyIsSpace).reverse.dropWhile pyIsSpace with _ | ⟨c, cs⟩
  · rw [hB] at h; simp at h
  · refine ⟨c, ?_, dropWhile_head_false hB⟩
    simp

lemma pyStrip_isEmpty_false {l : List Char} (h : ∃ c ∈ l, pyIsSpace c = false) :
    (pyStrip l).isEmpty = false := by
  obtain ⟨c, hc, hcs⟩ := h
  have hf : c ∈ l.filter (fun c => !pyIsSpace c) := by
    simp [List.mem_filter, hc, hcs]
  rw [← filter_pyStrip (fun c => !pyIsSpace c) (by intro c h; simp [h]) l] at hf
  rcases hs : pyStrip l with _ | _
  · rw [hs] at hf; simp at hf
  · simp [hs]

lemma digit_not_space {c : Char} (h : c.isDigit = true) : pyIsSpace c = false := by
  cases hs : pyIsSpace c
  · rfl
  · rw [space_not_digit hs] at h
    cases h

lemma str_mk_data (s : String) : (⟨s.data⟩ : String) = s := rfl

lemma mobileDigits_str (s : String) :
    mobileDigits (.str s) = s.data.filter Char.isDigit := by
  unfold mobileDigits
  show ((pyStrip s.data).filter Char.isDigit) = _
  exact filter_pyStrip _ (fun _ h => space_not_digit h) _

/-- Structure of a defined `normalize_mobile_number` result: all digits,
    nonempty, at most ten characters. -/
lemma normalizeMobile_some {v : Value} {r : String} (h : normalizeMobile v = some r) :
    (∀ c ∈ r.data, c.isDigit = true) ∧ r.data ≠ [] ∧ r.data.length ≤ 10 := by
  unfold normalizeMobile at h
  split at h
  · cases h
  · split at h
    · next hlen =>
      rw [Option.some.injEq] at h
      subst h
      refine ⟨?_, ?_, ?_⟩
      · intro c hc
        exact (List.mem_filter.mp (List.drop_subset _ _ hc)).2
      · have : ((mobileDigits v).drop ((mobileDigits v).length - 10)).length = 10 := by
          rw [List.length_drop]
          omega
        intro hnil
        rw [show (⟨(mobileDigits v).drop ((mobileDigits v).length - 10)⟩ : String).data =
          (mobileDigits v).drop ((mobileDigits v).length - 10) from rfl] at hnil
        rw [hnil] at this
        simp at this
      · show ((mobileDigits v).drop ((mobileDigits v).length - 10)).length ≤ 10
        rw [List.length_drop]
        omega
    · split at h
      · cases h
      · next hlen hemp =>
        rw [Option.some.injEq] at h
        subst h
        refine ⟨?_, ?_, ?_⟩
        · intro c hc
          exact (List.mem_filter.mp hc).2
        · show mobileDigits v ≠ []
          simpa using hemp
        · show (mobileDigits v).length ≤ 10
          omega

/-- Claim C9 part one: a defined mobile normalization result is a fixed
    point of `normalize_mobile_number`. -/
lemma normalizeMobile_idem {v : Value} {r : String} (h : normalizeMobile v = some r) :
    normalizeMobile (.str r) = some r := by
  obtain ⟨hdig, hne, hle⟩ := normalizeMobile_some h
  have hsne : ¬ (Value.str r = Value.none ∨ Value.str r = Value.str "") := by
    rintro (h₁ | h₁)
    · cases h₁
    · rw [Value.str.injEq] at h₁
      subst h₁
      exact hne rfl
  have hmd : mobileDigits (.str r) = r.data :=
    (mobileDigits_str r).trans (List.filter_eq_self.mpr hdig)
  unfold normalizeMobile
  rw [if_neg hsne, hmd]
  by_cases h10 : 10 ≤ r.data.length
  · have : r.data.length = 10 := by omega
    rw [if_pos h10, this]
    simp [str_mk_data]
  · rw [if_neg h10, if_neg (by simpa using hne)]

/-- Claim C4 — `normalize_mobile_number` first removes every non-digit
    character; with at least ten digits left it returns exactly the last ten
    of them, with one to nine it returns them unchanged, and with none (or an
    absent/empty input) it returns `None`. -/
theorem normalize_mobile_contract :
    normalizeMobile Value.none = Option.none ∧
    normalizeMobile (Value.str "") = Option.none ∧
    ∀ s : String, s ≠ "" →
      (10 ≤ (s.data.filter Char.isDigit).length →
        normalizeMobile (Value.str s) =
          some ⟨(s.data.filter Char.isDigit).drop ((s.data.filter Char.isDigit).length - 10)⟩ ∧
        ((s.data.filter Char.isDigit).drop ((s.data.filter Char.isDigit).length - 10)).length
          = 10) ∧
      (1 ≤ (s.data.filter Char.isDigit).length → (s.data.filter Char.isDigit).length ≤ 9 →
        normalizeMobile (Value.str s) = some ⟨s.data.filter Char.isDigit⟩) ∧
      ((s.data.filter Char.isDigit).length = 0 →
        normalizeMobile (Value.str s) = Option.none) := by
  refine ⟨rfl, rfl, ?_⟩
  intro s hs
  have hguard : ¬ (Value.str s = Value.none ∨ Value.str s = Value.str "") := by
    rintro (h₁ | h₁)
    · cases h₁
    · rw [Value.str.injEq] at h₁
      exact hs h₁
  refine ⟨?_, ?_, ?_⟩
  · intro h10
    unfold normalizeMobile
    rw [if_neg hguard, mobileDigits_str, if_pos h10]
    refine ⟨rfl, ?_⟩
    rw [List.length_drop]
    omega
  · intro h1 h9
    unfold normalizeMobile
    have hemp : (s.data.filter Char.isDigit).isEmpty = false := by
      rcases hh : s.data.filter Char.isDigit with _ | _
      · rw [hh] at h1
        simp at h1
      · rfl
    rw [if_neg hguard, mobileDigits_str, if_neg (by omega), if_neg (by simp [hemp])]
  · intro h0
    unfold normalizeMobile
    have hnil : s.data.filter Char.isDigit = [] := List.length_eq_zero.mp h0
    rw [if_neg hguard, mobileDigits_str, if_neg (by omega), if_pos (by simp [hnil])]

theorem normalize_mobile_contract_witness :
    normalizeMobile (Value.str "+91 98765-43210") = some "9876543210" ∧
    normalizeMobile (Value.str "12345") = some "12345" ∧
    normalizeMobile (Value.str "abc") = Option.none := by
  refine ⟨?_, ?_, ?_⟩
  · have h := ((normalize_mobile_contract.2.2 "+91 98765-43210" (by decide)).1 (by decide)).1
    rw [h]
    decide
  · have h := (normalize_mobile_contract.2.2 "12345" (by decide)).2.1 (by decide) (by decide)
    rw [h]
    decide
  · exact (normalize_mobile_contract.2.2 "abc" (by decide)).2.2 (by decide)

/-- Claim C9 — normalization is idempotent on its own results: re-normalizing
    a defined mobile result returns it unchanged, and `normalize_date` maps an
    already-normalized timestamp (a `datetime` object, by the `isinstance`
    branch) to itself. -/
theorem normalization_idempotent :
    (∀ (v : Value) (r : String), normalizeMobile v = some r →
      normalizeMobile (.str r) = some r) ∧
    (∀ (v : Value) (d : DateTime), normalizeDate v = some d →
      normalizeDate (.dt d) = some d) := by
  constructor
  · intro v r h
    exact normalizeMobile_idem h
  · intro v d _
    rfl

theorem normalization_idempotent_witness :
    normalizeMobile (Value.str "9876543210") = some "9876543210" ∧
    normalizeDate (Value.dt ⟨2024, 10, 15, 10, 30, 0, 0⟩) = some ⟨2024, 10, 15, 10, 30, 0, 0⟩ := by
  constructor
  · exact normalization_idempotent.1 (Value.str "+919876543210") "9876543210" (by decide)
  · exact normalization_idempotent.2 (Value.str "2024-10-15 10:30:00") ⟨2024, 10, 15, 10, 30, 0, 0⟩
      (by decide)

/-! Lemmas about blankness for `validate_required_fields`. -/

lemma isBlank_str_false {s : String} (h : ∃ c ∈ s.data, pyIsSpace c = false) :
    isBlank (.str s) = false :=
  pyStrip_isEmpty_false h

lemma isBlank_mobile {v : Value} {r : String} (h : normalizeMobile v = some r) :
    isBlank (.str r) = false := by
  obtain ⟨hdig, hne, -⟩ := normalizeMobile_some h
  rcases hd : r.data with _ | ⟨c, cs⟩
  · exact absurd hd hne
  · exact isBlank_str_false ⟨c, by rw [hd]; exact List.mem_cons_self _ _,
      digit_not_space (hdig c (by rw [hd]; exact List.mem_cons_self _ _))⟩

lemma isBlank_clean {v : Value} {s : String} (h : cleanString v = some s) :
    isBlank (.str s) = false := by
  unfold cleanString at h
  split at h
  · cases h
  · split at h
    · cases h
    · next hemp =>
      rw [Option.some.injEq] at h
      subst h
      have hne : pyStrip (pyStr v).data ≠ [] := by
        intro hnil
        exact hemp (by simp [hnil])
      obtain ⟨c, hc, hcs⟩ := pyStrip_mem_nonspace hne
      exact isBlank_str_false ⟨c, hc, hcs⟩

lemma isBlank_dt (d : DateTime) : isBlank (.dt d) = false := by
  show (pyStrip (d.pyRepr).data).isEmpty = false
  exact pyStrip_isEmpty_false
    ⟨'-', List.mem_append_right _ (List.mem_cons_self _ _), by decide⟩

/-- Claim C10 — `validate_required_fields` treats the integer `0` as present
    (its string form `0` is not blank), an unparseable `order_id` is
    defaulted to `0` by `safe_int`, and an order record whose `order_id` came
    out `0` with the other required fields present passes validation and is
    skipped solely by the loader's explicit `order_id == 0` check. -/
theorem zero_order_id_passes_validation :
    (∀ (data : List (String × Value)) (req : List String) (f : String),
        alookup f data = some (Value.int 0) → f ∉ (validateRequiredFields data req).2) ∧
    (∀ s : String, pyFloatOfString s = Option.none → safeIntE (Value.str s) = Except.ok 0) ∧
    (∀ (row : RawOrder) (mob sku : String) (odt : DateTime) (k : Int),
        safeIntE (optVal row.order_id) = .ok 0 →
        normalizeMobile (optVal row.mobile_number) = some mob →
        normalizeDate (optVal row.order_date_time) = some odt →
        cleanString (optVal row.sku_id) = some sku →
        safeIntE (optVal row.sku_count) = .ok k →
        (validateRequiredFields
          [("order_id", Value.int 0), ("mobile_number", Value.str mob),
           ("order_date_time", Value.dt odt), ("sku_id", Value.str sku)]
          ["order_id", "mobile_number", "order_date_time", "sku_id"]).1 = true ∧
        orderRecord row = OrderStep.skippedInvalid) := by
  refine ⟨?_, ?_, ?_⟩
  · intro data req f h hmem
    rw [validateRequiredFields, List.mem_filter] at hmem
    have hp := hmem.2
    rw [h] at hp
    exact absurd hp (by decide)
  · intro s h
    unfold safeIntE
    by_cases hs : s = ""
    · subst hs
      rfl
    · rw [if_neg (by simp [hs])]
      have hl : pyLitOfString s = Option.none :=
        Option.map_eq_none'.mp (show (pyLitOfString s).map PyLit.toPyFloat = Option.none from h)
      show safeIntCore s = Except.ok 0
      unfold safeIntCore
      rw [hl]
  · intro row mob sku odt k h1 h2 h3 h4 h5
    constructor
    · have hb1 : isBlank (Value.int 0) = false := by decide
      have hb2 := isBlank_mobile h2
      have hb3 := isBlank_dt odt
      have hb4 := isBlank_clean h4
      simp [validateRequiredFields, alookup, hb1, hb2, hb3, hb4]
    · simp only [orderRecord, h1, h5]
      simp

theorem zero_order_id_passes_validation_witness :
    (validateRequiredFields
      [("order_id", Value.int 0), ("mobile_number", Value.str "9876543210"),
       ("order_date_time", Value.dt ⟨2024, 10, 15, 0, 0, 0, 0⟩), ("sku_id", Value.str "SKU1")]
      ["order_id", "mobile_number", "order_date_time", "sku_id"]).1 = true ∧
    orderRecord ⟨some "abc", some "9876543210", some "2024-10-15", some "SKU1",
      some "2", some "10.5"⟩ = OrderStep.skippedInvalid :=
  zero_order_id_passes_validation.2.2
    ⟨some "abc", some "9876543210", some "2024-10-15", some "SKU1", some "2", some "10.5"⟩
    "9876543210" "SKU1" ⟨2024, 10, 15, 0, 0, 0, 0⟩ 2
    (by decide) (by decide) (by decide) (by decide) (by decide)

/-- Claim C2 evidence — the per-record `except IntegrityError` handler of
    `load_customers_from_csv` is dead code: with `autoflush=False`,
    `session.add` never flushes, so a duplicate `mobile_number` surfaces only
    at the file-level `session.commit()`, which rolls the whole file back and
    re-raises.  Loading the same CSV twice therefore adds zero customers but
    raises instead of counting the duplicate as skipped. -/
theorem duplicate_mobile_reload_aborts_commit :
    (loadCustomers [csvRowAmit] []).db = [⟨"Amit Sharma", "9876543210", "North"⟩] ∧
    (loadCustomers [csvRowAmit] []).raised = false ∧
    (loadCustomers [csvRowAmit] (loadCustomers [csvRowAmit] []).db).raised = true ∧
    (loadCustomers [csvRowAmit] (loadCustomers [csvRowAmit] []).db).db =
      (loadCustomers [csvRowAmit] []).db ∧
    (loadCustomers [csvRowAmit] (loadCustomers [csvRowAmit] []).db).skipped = 0 ∧
    (loadCustomers [csvRowAmit] (loadCustomers [csvRowAmit] []).db).loaded = 1 := by
  decide

/-- Claim C3 evidence — the generic per-record handler calls
    `session.rollback()`, which discards every pending insert of the file,
    not just the failing record's: order 1001 is accepted (and counted in the
    returned `orders_loaded = 2`), order `inf` errors, and the file-level
    commit then persists only order 1003. -/
theorem record_error_rollback_discards_pending :
    (orderRecord xmlOrder1).addedId = some 1001 ∧
    orderRecord xmlOrderInf = OrderStep.recordError ∧
    (loadOrders [xmlOrder1, xmlOrderInf, xmlOrder3] []).db.map (fun o => o.order_id)
      = [1003] ∧
    (loadOrders [xmlOrder1, xmlOrderInf, xmlOrder3] []).loaded = 2 ∧
    (loadOrders [xmlOrder1, xmlOrderInf, xmlOrder3] []).skipped = 1 ∧
    (loadOrders [xmlOrder1, xmlOrderInf, xmlOrder3] []).raised = false := by
  decide

/-! Claim C8: the schema pre-check and the reject artifact. -/

lemma ingest_foldl (files : List InFile) (acc : List String × List RejectArtifact) :
    files.foldl ingestStep acc =
      (acc.1 ++ (files.filter (fun g => validateFileSchema g)).map (fun g => g.name),
       acc.2 ++ (files.filter (fun g => ! validateFileSchema g)).map
         (fun g => ⟨g.name, "Schema validation failed", 0⟩)) := by
  induction files generalizing acc with
  | nil => simp
  | cons f fs ih =>
    rw [List.foldl_cons, ih]
    by_cases h : validateFileSchema f
    · simp [ingestStep, h, List.filter_cons]
    · simp [ingestStep, h, List.filter_cons]

/-- Claim C8, amended — in a run, every file passing the schema pre-check is
    handed to the load step (in run order), every failing file instead yields
    a reject artifact with reason `Schema validation failed` (capital S, as
    written by `daily_ingestion_flow` line 269) and an empty attached-record
    list, and an XML file whose content lacks the `<orders>`/`</orders>`
    wrapper pair fails the pre-check. -/
theorem schema_precheck_flow_contract :
    (∀ files : List InFile,
      (dailyIngestionFlow files).1 =
        (files.filter (fun g => validateFileSchema g)).map (fun g => g.name) ∧
      (dailyIngestionFlow files).2 =
        (files.filter (fun g => ! validateFileSchema g)).map
          (fun g => ⟨g.name, "Schema validation failed", 0⟩)) ∧
    (∀ (f : InFile) (c : String), f.kind = FileKind.xml c →
      (containsSub "<orders>".data c.data && containsSub "</orders>".data c.data) = false →
      validateFileSchema f = false) := by
  constructor
  · intro files
    have h := ingest_foldl files ([], [])
    rw [dailyIngestionFlow, h]
    simp
  · intro f c hk hw
    rw [validateFileSchema, hk]
    exact hw

/-- Counterexample to claim C8 as stated: the reject artifact's reason is the
    capitalized `Schema validation failed`, never the claimed lower-case
    `schema validation failed`. -/
theorem schema_reject_reason_capitalized :
    (dailyIngestionFlow [⟨"orders_bad.xml", .xml "<order></order>"⟩]).2 =
      [⟨"orders_bad.xml", "Schema validation failed", 0⟩] ∧
    ∀ a ∈ (dailyIngestionFlow [⟨"orders_bad.xml", .xml "<order></order>"⟩]).2,
      a.reason ≠ "schema validation failed" := by
  decide

theorem schema_precheck_flow_contract_witness :
    validateFileSchema ⟨"orders_bad.xml", .xml "<order></order>"⟩ = false ∧
    (dailyIngestionFlow
      [⟨"customers.csv", .csv true⟩, ⟨"orders_bad.xml", .xml "<order></order>"⟩,
       ⟨"orders.xml", .xml "<orders></orders>"⟩]).1 = ["customers.csv", "orders.xml"] ∧
    (dailyIngestionFlow
      [⟨"customers.csv", .csv true⟩, ⟨"orders_bad.xml", .xml "<order></order>"⟩,
       ⟨"orders.xml", .xml "<orders></orders>"⟩]).2 =
      [⟨"orders_bad.xml", "Schema validation failed", 0⟩] := by
  refine ⟨?_, ?_, ?_⟩
  · exact schema_precheck_flow_contract.2 ⟨"orders_bad.xml", .xml "<order></order>"⟩
      "<order></order>" rfl (by decide)
  · rw [(schema_precheck_flow_contract.1 _).1]
    decide
  · rw [(schema_precheck_flow_contract.1 _).2]
    decide

/-! Claim C5: the tried-in-order contract of `normalize_date` and the shape
    of its format list. -/

/-- Counterexample to claim C5 as stated: the source's format list is not
    grouped as all full datetime variants, then all date-only variants, then
    compact, then ISO — the date-only `%Y-%m-%d` sits at index 2, before the
    full datetime `%d/%m/%Y %H:%M:%S` at index 3. -/
theorem date_format_order_not_grouped :
    ¬ List.Pairwise (fun a b => fmtSpecRank a ≤ fmtSpecRank b) dateFormats ∧
    dateFormats.getD 2 [] = fmt03 ∧ fmtSpecRank fmt03 = 1 ∧
    dateFormats.getD 3 [] = fmt04 ∧ fmtSpecRank fmt04 = 0 := by
  decide

/-- Claim C5, amended — `normalize_date` tries the fixed format list in
    source order and returns the first successful parse (`None` when the
    input is absent/empty or no format matches); the list interleaves each
    separator family's full-datetime and date-only variants (`%Y-%m-%d`
    appears before `%d/%m/%Y %H:%M:%S`), with the compact `%Y%m%d` tenth and
    the ISO-with-`T` variants last. -/
theorem normalize_date_first_match :
    dateFormats =
      [fmt01, fmt02, fmt03, fmt04, fmt05, fmt06, fmt07, fmt08, fmt09, fmt10, fmt11, fmt12] ∧
    normalizeDate Value.none = Option.none ∧
    normalizeDate (Value.str "") = Option.none ∧
    (∀ (s : String) (d : DateTime), s ≠ "" →
      (normalizeDate (Value.str s) = some d ↔
        ∃ pre f post, dateFormats = pre ++ f :: post ∧
          strptime f (pyStrip s.data) = some d ∧
          ∀ g ∈ pre, strptime g (pyStrip s.data) = Option.none)) ∧
    (∀ s : String, s ≠ "" →
      (normalizeDate (Value.str s) = Option.none ↔
        ∀ f ∈ dateFormats, strptime f (pyStrip s.data) = Option.none)) := by
  have hrw : ∀ s : String, s ≠ "" →
      normalizeDate (Value.str s) = dateFormats.findSome? (fun f => strptime f (pyStrip s.data)) := by
    intro s hs
    unfold normalizeDate
    rw [if_neg (by simp [hs])]
    rfl
  refine ⟨rfl, rfl, rfl, ?_, ?_⟩
  · intro s d hs
    rw [hrw s hs]
    exact List.findSome?_eq_some_iff.trans
      ⟨fun ⟨l₁, a, l₂, he, hf, hn⟩ => ⟨l₁, a, l₂, he, hf, hn⟩,
       fun ⟨l₁, a, l₂, he, hf, hn⟩ => ⟨l₁, a, l₂, he, hf, hn⟩⟩
  · intro s hs
    rw [hrw s hs]
    exact List.findSome?_eq_none_iff

theorem normalize_date_first_match_witness :
    ∃ pre f post,
      dateFormats = pre ++ f :: post ∧
      strptime f (pyStrip "15/10/2024".data) = some ⟨2024, 10, 15, 0, 0, 0, 0⟩ ∧
      ∀ g ∈ pre, strptime g (pyStrip "15/10/2024".data) = Option.none :=
  (normalize_date_first_match.2.2.2.1 "15/10/2024" ⟨2024, 10, 15, 0, 0, 0, 0⟩
    (by decide)).mp (by decide)

/-! Toolkit lemmas for the KPI proofs. -/

lemma alookup_tab {K V : Type} [DecidableEq K] (keys : List K) (f : K → V) (m : K) :
    alookup m (keys.map (fun k => (k, f k))) =
      if m ∈ keys then some (f m) else Option.none := by
  induction keys with
  | nil => rfl
  | cons k ks ih =>
    rw [List.map_cons]
    show (if m = k then some (f k) else alookup m (ks.map (fun k => (k, f k)))) = _
    by_cases h : m = k
    · subst h
      simp
    · rw [if_neg h, ih]
      by_cases hm : m ∈ ks <;> simp [hm, h]

lemma mem_dedupFAux {α : Type} [DecidableEq α] {x : α} :
    ∀ {seen l : List α}, x ∈ dedupFAux seen l ↔ x ∈ l ∧ x ∉ seen := by
  intro seen l
  induction l generalizing seen with
  | nil => simp [dedupFAux]
  | cons a t ih =>
    by_cases h : a ∈ seen
    · rw [dedupFAux, if_pos h, ih]
      constructor
      · rintro ⟨hx, hs⟩
        exact ⟨List.mem_cons_of_mem _ hx, hs⟩
      · rintro ⟨hx, hs⟩
        rcases List.mem_cons.mp hx with rfl | hx
        · exact absurd h hs
        · exact ⟨hx, hs⟩
    · rw [dedupFAux, if_neg h]
      constructor
      · intro hx
        rcases List.mem_cons.mp hx with rfl | hx
        · exact ⟨List.mem_cons_self _ _, h⟩
        · obtain ⟨h₁, h₂⟩ := ih.mp hx
          refine ⟨List.mem_cons_of_mem _ h₁, fun hs => h₂ (List.mem_cons_of_mem _ hs)⟩
      · rintro ⟨hx, hs⟩
        rcases List.mem_cons.mp hx with rfl | hx
        · exact List.mem_cons_self _ _
        · by_cases hxa : x = a
          · subst hxa
            exact List.mem_cons_self _ _
          · exact List.mem_cons_of_mem _ (ih.mpr ⟨hx, by
              intro hmem
              rcases List.mem_cons.mp hmem with h₁ | h₁
              · exact hxa h₁
              · exact hs h₁⟩)

lemma mem_dedupF {α : Type} [DecidableEq α] {x : α} {l : List α} :
    x ∈ dedupF l ↔ x ∈ l := by
  rw [dedupF, mem_dedupFAux]
  simp

lemma nodup_dedupFAux {α : Type} [DecidableEq α] :
    ∀ {seen l : List α}, (dedupFAux seen l).Nodup := by
  intro seen l
  induction l generalizing seen with
  | nil => exact List.nodup_nil
  | cons a t ih =>
    by_cases h : a ∈ seen
    · rw [dedupFAux, if_pos h]
      exact ih
    · rw [dedupFAux, if_neg h]
      refine List.nodup_cons.mpr ⟨fun hmem => ?_, ih⟩
      exact (mem_dedupFAux.mp hmem).2 (List.mem_cons_self _ _)

lemma nodup_dedupF {α : Type} [DecidableEq α] {l : List α} : (dedupF l).Nodup :=
  nodup_dedupFAux

lemma sortB_perm {α : Type} (le : α → α → Bool) (l : List α) : List.Perm (sortB le l) l :=
  @List.perm_insertionSort α (fun a b => le a b = true)
    (fun a b => instDecidableEqBool (le a b) true) l

lemma sortB_pairwise {α : Type} (le : α → α → Bool)
    (htot : ∀ a b, le a b = true ∨ le b a = true)
    (htrans : ∀ a b c, le a b = true → le b c = true → le a c = true)
    (l : List α) : (sortB le l).Pairwise (fun a b => le a b = true) := by
  letI : DecidableRel (fun a b => le a b = true) :=
    fun a b => instDecidableEqBool (le a b) true
  haveI ht : IsTotal α (fun a b => le a b = true) := ⟨htot⟩
  haveI htr : IsTrans α (fun a b => le a b = true) := ⟨htrans⟩
  exact List.sorted_insertionSort _ l

/-- Two permuted lists sorted by the same Boolean preorder whose sort keys
    are duplicate-free are equal. -/
lemma eq_of_perm_sorted_keysNodup {α K : Type} (le : α → α → Bool) (k : α → K)
    (hanti : ∀ a b, le a b = true → le b a = true → k a = k b) :
    ∀ {l₁ l₂ : List α}, List.Perm l₁ l₂ →
      l₁.Pairwise (fun a b => le a b = true) →
      l₂.Pairwise (fun a b => le a b = true) →
      (l₁.map k).Nodup → l₁ = l₂ := by
  intro l₁
  induction l₁ with
  | nil =>
    intro l₂ hp _ _ _
    exact hp.nil_eq
  | cons a t ih =>
    intro l₂ hp hs₁ hs₂ hnd
    cases l₂ with
    | nil => exact absurd hp.symm.nil_eq (by simp)
    | cons b t₂ =>
      have hab : a = b := by
        by_contra hne
        have hbmem : b ∈ a :: t := hp.symm.subset (List.mem_cons_self _ _)
        have hamem : a ∈ b :: t₂ := hp.subset (List.mem_cons_self _ _)
        have hb_t : b ∈ t := by
          rcases List.mem_cons.mp hbmem with h | h
          · exact absurd h.symm hne
          · exact h
        have ha_t₂ : a ∈ t₂ := by
          rcases List.mem_cons.mp hamem with h | h
          · exact absurd h hne
          · exact h
        have h₁ : le a b = true := (List.pairwise_cons.mp hs₁).1 b hb_t
        have h₂ : le b a = true := (List.pairwise_cons.mp hs₂).1 a ha_t₂
        have hk : k a = k b := hanti _ _ h₁ h₂
        have hmem : k b ∈ t.map k := List.mem_map_of_mem k hb_t
        rw [List.map_cons] at hnd
        exact (List.nodup_cons.mp hnd).1 (hk ▸ hmem)
      subst hab
      have := ih hp.cons_inv (List.pairwise_cons.mp hs₁).2 (List.pairwise_cons.mp hs₂).2
        (by rw [List.map_cons] at hnd; exact (List.nodup_cons.mp hnd).2)
      rw [this]

lemma round2_zero : round2 0 = 0 := by
  rw [round2]
  norm_num

lemma round2_mono {a b : ℚ} (h : a ≤ b) : round2 a ≤ round2 b := by
  rw [round2, round2]
  have : (⌊a * 100 + 1 / 2⌋ : ℤ) ≤ ⌊b * 100 + 1 / 2⌋ := by
    apply Int.floor_le_floor
    have : a * 100 ≤ b * 100 := by nlinarith
    linarith
  have h2 : ((⌊a * 100 + 1 / 2⌋ : ℤ) : ℚ) ≤ ((⌊b * 100 + 1 / 2⌋ : ℤ) : ℚ) := by
    exact_mod_cast this
  have h100 : (0 : ℚ) < 100 := by norm_num
  exact (div_le_div_iff_of_pos_right h100).mpr h2

/-! Generic list computation lemmas. -/

lemma sum_map_zero {α M : Type} [AddCommMonoid M] (l : List α) :
    (l.map (fun _ => (0 : M))).sum = 0 := by
  induction l with
  | nil => rfl
  | cons a t ih => simp [ih]

lemma sum_filter_map {α M : Type} [AddCommMonoid M] (p : α → Bool) (g : α → M) :
    ∀ l : List α, ((l.filter p).map g).sum = (l.map (fun a => if p a then g a else 0)).sum := by
  intro l
  induction l with
  | nil => rfl
  | cons a t ih =>
    rw [List.filter_cons]
    by_cases h : p a = true
    · rw [if_pos h, List.map_cons, List.sum_cons, ih, List.map_cons, List.sum_cons, if_pos h]
    · rw [if_neg h, ih, List.map_cons, List.sum_cons, if_neg h, zero_add]

lemma ite_sum_map {α M : Type} [AddCommMonoid M] (b : Bool) (g : α → M) (l : List α) :
    (if b then (l.map g).sum else 0) = (l.map (fun x => if b then g x else 0)).sum := by
  cases b
  · rw [if_neg (by simp)]
    rw [show (fun x => if false = true then g x else (0 : M)) = fun _ => (0 : M) from by
      funext x; simp]
    rw [sum_map_zero]
  · simp

lemma sum_comm_list {α β M : Type} [AddCommMonoid M] (f : α → β → M) (l₁ : List α)
    (l₂ : List β) :
    (l₁.map (fun a => ((l₂.map (f a)).sum))).sum =
      (l₂.map (fun b => ((l₁.map (fun a => f a b)).sum))).sum := by
  induction l₁ with
  | nil =>
    simp [sum_map_zero]
  | cons a t ih =>
    rw [List.map_cons, List.sum_cons, ih, ← List.sum_map_add]
    refine congrArg List.sum (List.map_congr_left (fun b _ => ?_))
    simp

lemma length_as_sum {α : Type} (l : List α) : l.length = (l.map (fun _ => 1)).sum := by
  induction l with
  | nil => rfl
  | cons a t ih =>
    rw [List.length_cons, List.map_cons, List.sum_cons, ih]
    omega

lemma sum_flatMapM {α M : Type} [AddCommMonoid M] (l : List α) (g : α → List M) :
    (l.flatMap g).sum = (l.map (fun a => (g a).sum)).sum := by
  induction l with
  | nil => rfl
  | cons a t ih => simp [List.flatMap_cons, List.sum_append, ih]

lemma flatMap_congr {α β : Type} {f g : α → List β} :
    ∀ {l : List α}, (∀ a ∈ l, f a = g a) → l.flatMap f = l.flatMap g := by
  intro l
  induction l with
  | nil => intro _; rfl
  | cons a t ih =>
    intro h
    rw [List.flatMap_cons, List.flatMap_cons, h a (List.mem_cons_self _ _),
      ih (fun x hx => h x (List.mem_cons_of_mem _ hx))]

lemma flatMap_ite {α β : Type} (p : α → Bool) (g : α → List β) :
    ∀ l : List α, (l.flatMap (fun a => if p a then g a else [])) = (l.filter p).flatMap g := by
  intro l
  induction l with
  | nil => rfl
  | cons a t ih =>
    rw [List.flatMap_cons, List.filter_cons]
    by_cases h : p a = true
    · rw [if_pos h, if_pos h, List.flatMap_cons, ih]
    · rw [if_neg h, if_neg h, List.nil_append, ih]

lemma dedupF_length_eq_card {α : Type} [DecidableEq α] (l : List α) :
    (dedupF l).length = l.toFinset.card := by
  rw [List.card_toFinset]
  exact List.Perm.length_eq
    ((List.perm_ext_iff_of_nodup nodup_dedupF l.nodup_dedup).mpr
      (fun a => by rw [mem_dedupF, List.mem_dedup]))

lemma mem_keysFA {α K : Type} [DecidableEq K] {key : α → K} {l : List α} {k : K} :
    k ∈ keysFA key l ↔ ∃ a ∈ l, key a = k := by
  rw [keysFA, mem_dedupF, List.mem_map]

lemma ordersFor_ne_nil {os : List Order} {m : String} :
    ordersFor os m ≠ [] ↔ ∃ o ∈ os, o.mobile_number = m := by
  rw [ordersFor, Ne, List.filter_eq_nil_iff]
  push_neg
  constructor
  · rintro ⟨o, ho, h⟩
    exact ⟨o, ho, by simpa using h⟩
  · rintro ⟨o, ho, h⟩
    exact ⟨o, ho, by simpa using h⟩

/-! Repeat customers: the three backends compute the same rows. -/

lemma countBy_filter_alookup (os : List Order) (m : String) :
    alookup m ((countBy os).filter (fun p => 1 < p.2)) =
      if 1 < (ordersFor os m).length then some ((ordersFor os m).length)
      else Option.none := by
  rw [countBy, List.filter_map]
  have hcomp : ((fun p : String × Nat => decide (1 < p.2)) ∘
      (fun m => (m, (ordersFor os m).length))) =
      fun m => decide (1 < (ordersFor os m).length) := rfl
  rw [hcomp, alookup_tab]
  by_cases hm : 1 < (ordersFor os m).length
  · rw [if_pos hm, if_pos]
    rw [List.mem_filter]
    refine ⟨?_, by simpa using hm⟩
    rw [keysFA, mem_dedupF, List.mem_map]
    have hne : ordersFor os m ≠ [] := by
      intro hnil
      rw [hnil] at hm
      simp at hm
    obtain ⟨o, ho, hom⟩ := ordersFor_ne_nil.mp hne
    exact ⟨o, ho, hom⟩
  · rw [if_neg hm, if_neg]
    rw [List.mem_filter]
    rintro ⟨-, hgt⟩
    exact hm (by simpa using hgt)

lemma repeatBases_eq (cs : List Customer) (os : List Order) :
    pandasRepeatBase cs os = sqlRepeatBase cs os := by
  rw [pandasRepeatBase, sqlRepeatBase]
  apply List.filterMap_congr
  intro c _
  rw [countBy_filter_alookup]
  by_cases h : 1 < (ordersFor os c.mobile_number).length
  · rw [if_pos h, if_pos h]
    rfl
  · rw [if_neg h, if_neg h]
    rfl

lemma sqlRepeat_eq_pandasRepeat (cs : List Customer) (os : List Order) :
    sqlRepeat cs os = pandasRepeat cs os := by
  rw [sqlRepeat, pandasRepeat, repeatBases_eq]

lemma ordersFor_flatten (osParts : List (List Order)) (m : String) :
    ordersFor (osParts.flatMap id) m = osParts.flatMap (fun p => ordersFor p m) := by
  rw [ordersFor, List.filter_flatMap]
  rfl

lemma daskCountBy_eq (osParts : List (List Order)) :
    daskCountBy osParts = countBy (osParts.flatMap id) := by
  rw [daskCountBy, countBy, keysFA]
  have hkeys : (osParts.flatMap (fun p => p.map (fun o => o.mobile_number))) =
      (osParts.flatMap id).map (fun o => o.mobile_number) := by
    rw [List.map_flatMap]
    rfl
  rw [hkeys]
  apply List.map_congr_left
  intro m _
  rw [ordersFor_flatten, List.length_flatMap]
  rfl

lemma daskRepeat_eq_pandasRepeat (csParts : List (List Customer))
    (osParts : List (List Order)) :
    daskRepeat csParts osParts = pandasRepeat (csParts.flatMap id) (osParts.flatMap id) := by
  rw [daskRepeat, pandasRepeat, pandasRepeatBase, daskCountBy_eq]

/-! Monthly trends: the three backends compute the same rows. -/

lemma sqlMonthly_eq_pandasMonthly (os : List Order) :
    sqlMonthly os = pandasMonthly os := by
  rw [sqlMonthly, pandasMonthly]
  congr 1
  apply List.map_congr_left
  intro k _
  have hq : (if sumAmounts (ordersInYM os k) = 0 then (0 : ℚ)
      else round2 (sumAmounts (ordersInYM os k))) = round2 (sumAmounts (ordersInYM os k)) := by
    by_cases h : sumAmounts (ordersInYM os k) = 0
    · rw [if_pos h, h, round2_zero]
    · rw [if_neg h]
  simp only [hq]

/-! Datetime comparison and maximum. -/

lemma lexLe_refl : ∀ l : List Nat, lexLe l l = true := by
  intro l
  induction l with
  | nil => rfl
  | cons a t ih =>
    rw [lexLe]
    rw [if_neg (by omega), if_pos rfl]
    exact ih

lemma lexLe_total : ∀ l₁ l₂ : List Nat, lexLe l₁ l₂ = true ∨ lexLe l₂ l₁ = true := by
  intro l₁
  induction l₁ with
  | nil => intro l₂; left; rfl
  | cons a t ih =>
    intro l₂
    cases l₂ with
    | nil => right; rfl
    | cons b t₂ =>
      rw [lexLe, lexLe]
      rcases Nat.lt_trichotomy a b with h | h | h
      · left
        rw [if_pos h]
      · subst h
        rw [if_neg (by omega), if_pos rfl, if_neg (by omega), if_pos rfl]
        exact ih t₂
      · right
        rw [if_pos h]

lemma lexLe_trans : ∀ l₁ l₂ l₃ : List Nat,
    lexLe l₁ l₂ = true → lexLe l₂ l₃ = true → lexLe l₁ l₃ = true := by
  intro l₁
  induction l₁ with
  | nil => intro _ _ _ _; rfl
  | cons a t ih =>
    intro l₂ l₃ h₁ h₂
    cases l₂ with
    | nil => exact absurd h₁ (by rw [lexLe]; simp)
    | cons b t₂ =>
      cases l₃ with
      | nil => exact absurd h₂ (by rw [lexLe]; simp)
      | cons c t₃ =>
        rw [lexLe] at h₁ h₂ ⊢
        by_cases hab : a < b
        · rw [if_pos hab] at h₁
          by_cases hbc : b < c
          · rw [if_pos (by omega)]
          · rw [if_neg hbc] at h₂
            by_cases hbc2 : b = c
            · subst hbc2
              rw [if_pos hab]
            · rw [if_neg hbc2] at h₂
              cases h₂
        · rw [if_neg hab] at h₁
          by_cases hab2 : a = b
          · subst hab2
            rw [if_pos rfl] at h₁
            by_cases hbc : a < c
            · rw [if_pos hbc]
            · rw [if_neg hbc] at h₂ ⊢
              by_cases hbc2 : a = c
              · rw [if_pos hbc2] at h₂ ⊢
                exact ih t₂ t₃ h₁ h₂
              · rw [if_neg hbc2] at h₂
                cases h₂
          · rw [if_neg hab2] at h₁
            cases h₁

lemma dtMax_foldl_mem (step : DateTime → DateTime → DateTime)
    (hstep : ∀ acc x, step acc x = acc ∨ step acc x = x) :
    ∀ (rest : List DateTime) (init : DateTime),
      rest.foldl step init = init ∨ rest.foldl step init ∈ rest := by
  intro rest
  induction rest with
  | nil => intro init; left; rfl
  | cons a t ih =>
    intro init
    rw [List.foldl_cons]
    rcases ih (step init a) with h | h
    · rcases hstep init a with h₂ | h₂
      · left
        rw [h, h₂]
      · right
        rw [h, h₂]
        exact List.mem_cons_self _ _
    · right
      exact List.mem_cons_of_mem _ h

lemma dtMax_mem {l : List DateTime} (h : l ≠ []) : dtMax l ∈ l := by
  rcases l with _ | ⟨d, rest⟩
  · exact absurd rfl h
  · rw [dtMax]
    rcases dtMax_foldl_mem (fun acc x => if lexLe acc.key x.key then x else acc)
      (fun acc x => by
        by_cases hc : lexLe acc.key x.key = true
        · right
          simp [hc]
        · left
          simp [hc])
      rest d with h₂ | h₂
    · rw [h₂]
      exact List.mem_cons_self _ _
    · exact List.mem_cons_of_mem _ h₂

lemma dtMax_foldl_ge :
    ∀ (rest : List DateTime) (init : DateTime),
      lexLe init.key ((rest.foldl (fun acc x => if lexLe acc.key x.key then x else acc)
        init)).key = true ∧
      ∀ x ∈ rest, lexLe x.key ((rest.foldl (fun acc x => if lexLe acc.key x.key then x else acc)
        init)).key = true := by
  intro rest
  induction rest with
  | nil => intro init; exact ⟨lexLe_refl _, by simp⟩
  | cons a t ih =>
    intro init
    rw [List.foldl_cons]
    obtain ⟨h₁, h₂⟩ := ih (if lexLe init.key a.key then a else init)
    have hinit : lexLe init.key (if lexLe init.key a.key then a else init).key = true := by
      by_cases hc : lexLe init.key a.key = true
      · rw [if_pos hc]
        exact hc
      · rw [if_neg hc]
        exact lexLe_refl _
    have ha : lexLe a.key (if lexLe init.key a.key then a else init).key = true := by
      by_cases hc : lexLe init.key a.key = true
      · rw [if_pos hc]
        exact lexLe_refl _
      · rw [if_neg hc]
        rcases lexLe_total init.key a.key with h | h
        · exact absurd h hc
        · exact h
    refine ⟨lexLe_trans _ _ _ hinit h₁, ?_⟩
    intro x hx
    rcases List.mem_cons.mp hx with rfl | hx
    · exact lexLe_trans _ _ _ ha h₁
    · exact h₂ x hx

lemma dtMax_ge {l : List DateTime} : ∀ d ∈ l, lexLe d.key (dtMax l).key = true := by
  rcases l with _ | ⟨a, rest⟩
  · intro d hd
    cases hd
  · intro d hd
    rw [dtMax]
    obtain ⟨h₁, h₂⟩ := dtMax_foldl_ge rest a
    rcases List.mem_cons.mp hd with rfl | hd
    · exact h₁
    · exact h₂ d hd

/-- In a descending-sorted list, anything present but not among the first
    `n` means the prefix is full and everything kept dominates it. -/
lemma take_bound {α : Type} (le : α → α → Bool) {l : List α} {n : Nat} {x : α}
    (hp : l.Pairwise (fun a b => le a b = true)) (hx : x ∈ l) (hnx : x ∉ l.take n) :
    (l.take n).length = n ∧ ∀ y ∈ l.take n, le y x = true := by
  have hlen : n ≤ l.length := by
    by_contra hlt
    push_neg at hlt
    rw [List.take_of_length_le (by omega)] at hnx
    exact hnx hx
  constructor
  · rw [List.length_take]
    omega
  · intro y hy
    have hxdrop : x ∈ l.drop n := by
      have hsplit := List.take_append_drop n l
      rw [← hsplit, List.mem_append] at hx
      rcases hx with h | h
      · exact absurd h hnx
      · exact h
    have hp₂ : ((l.take n) ++ (l.drop n)).Pairwise (fun a b => le a b = true) := by
      rw [List.take_append_drop]
      exact hp
    exact (List.pairwise_append.mp hp₂).2.2 y hy x hxdrop

/-! Top spenders: backend agreement. -/

lemma recentFor_eq (os : List Order) (cutoff : DateTime) (m : String) :
    ordersFor (os.filter (fun o => dtLeB cutoff o.order_date_time)) m =
      recentFor os cutoff m := by
  rw [ordersFor, recentFor, ordersFor, List.filter_comm]

lemma topBases_eq (cs : List Customer) (os : List Order) (cutoff : DateTime) :
    pandasTopBase cs os cutoff = sqlTopBase cs os cutoff := by
  rw [pandasTopBase, sqlTopBase]
  apply List.filterMap_congr
  intro c _
  rw [alookup_tab]
  by_cases h : c.mobile_number ∈
      keysFA (fun o => o.mobile_number) (os.filter (fun o => dtLeB cutoff o.order_date_time))
  · rw [if_pos h]
    have hne : recentFor os cutoff c.mobile_number ≠ [] := by
      rw [← recentFor_eq]
      obtain ⟨o, ho, hom⟩ := mem_keysFA.mp h
      exact ordersFor_ne_nil.mpr ⟨o, ho, hom⟩
    rw [if_neg (by simpa using hne), Option.map_some', recentFor_eq]
  · rw [if_neg h]
    have hnil : recentFor os cutoff c.mobile_number = [] := by
      rw [← recentFor_eq]
      by_contra hne
      obtain ⟨o, ho, hom⟩ := ordersFor_ne_nil.mp hne
      exact h (mem_keysFA.mpr ⟨o, ho, hom⟩)
    rw [if_pos (by simp [hnil])]
    rfl

lemma ite_round2_collapse (q : ℚ) : (if q = 0 then (0 : ℚ) else round2 q) = round2 q := by
  by_cases h : q = 0
  · rw [if_pos h, h, round2_zero]
  · rw [if_neg h]

lemma sqlTop_take_map (cs : List Customer) (os : List Order) (cutoff : DateTime) (limit : Nat) :
    sqlTop cs os cutoff limit =
      ((sortB topAggDesc (sqlTopBase cs os cutoff)).take limit).map topRowOf := by
  rw [sqlTop]
  apply List.map_congr_left
  intro a _
  rw [topRowOf, ite_round2_collapse, ite_round2_collapse]

lemma topAggDesc_total : ∀ a b : TopAgg, topAggDesc a b = true ∨ topAggDesc b a = true := by
  intro a b
  rw [topAggDesc, topAggDesc, decide_eq_true_eq, decide_eq_true_eq]
  exact le_total _ _

lemma topAggDesc_trans : ∀ a b c : TopAgg,
    topAggDesc a b = true → topAggDesc b c = true → topAggDesc a c = true := by
  intro a b c h₁ h₂
  rw [topAggDesc, decide_eq_true_eq] at h₁ h₂ ⊢
  exact le_trans h₂ h₁

lemma topRowDesc_total : ∀ a b : TopRow, topRowDesc a b = true ∨ topRowDesc b a = true := by
  intro a b
  rw [topRowDesc, topRowDesc, decide_eq_true_eq, decide_eq_true_eq]
  exact le_total _ _

lemma topRowDesc_trans : ∀ a b c : TopRow,
    topRowDesc a b = true → topRowDesc b c = true → topRowDesc a c = true := by
  intro a b c h₁ h₂
  rw [topRowDesc, decide_eq_true_eq] at h₁ h₂ ⊢
  exact le_trans h₂ h₁

lemma sorted_map_topRowOf (B : List TopAgg) :
    ((sortB topAggDesc B).map topRowOf).Pairwise (fun a b => topRowDesc a b = true) := by
  rw [List.pairwise_map]
  apply (sortB_pairwise topAggDesc topAggDesc_total topAggDesc_trans B).imp
  intro a b h
  rw [topAggDesc, decide_eq_true_eq] at h
  rw [topRowDesc, decide_eq_true_eq]
  exact round2_mono h

/-- With pairwise-distinct rounded totals, sorting the unrounded aggregates
    and then rounding equals rounding and then sorting by the rounded key. -/
lemma sortB_round_comm {B : List TopAgg}
    (h : (B.map (fun a => round2 a.total)).Nodup) :
    (sortB topAggDesc B).map topRowOf = sortB topRowDesc (B.map topRowOf) := by
  have hperm : List.Perm ((sortB topAggDesc B).map topRowOf)
      (sortB topRowDesc (B.map topRowOf)) :=
    ((sortB_perm topAggDesc B).map topRowOf).trans (sortB_perm topRowDesc _).symm
  have hnodup : (((sortB topAggDesc B).map topRowOf).map
      (fun r => r.total_spent)).Nodup := by
    have hmm : List.Perm (((sortB topAggDesc B).map topRowOf).map (fun r => r.total_spent))
        ((B.map topRowOf).map (fun r => r.total_spent)) :=
      ((sortB_perm topAggDesc B).map topRowOf).map _
    have : ((B.map topRowOf).map (fun r => r.total_spent)).Nodup := by
      rw [List.map_map]
      exact h
    exact hmm.symm.nodup this
  exact eq_of_perm_sorted_keysNodup topRowDesc (fun r => r.total_spent)
    (fun a b h₁ h₂ => by
      rw [topRowDesc, decide_eq_true_eq] at h₁ h₂
      exact le_antisymm h₂ h₁)
    hperm (sorted_map_topRowOf B)
    (sortB_pairwise topRowDesc topRowDesc_total topRowDesc_trans _) hnodup

lemma sqlTop_eq_pandasTop {cs : List Customer} {os : List Order} {cutoff : DateTime}
    {limit : Nat} (h : ((sqlTopBase cs os cutoff).map (fun a => round2 a.total)).Nodup) :
    sqlTop cs os cutoff limit = pandasTop cs os cutoff limit := by
  rw [sqlTop_take_map, pandasTop, topBases_eq, List.map_take, sortB_round_comm h]

/-! Regional revenue: backend agreement up to the unspecified tie order. -/

lemma ite_and_ite {M : Type} [AddCommMonoid M] (a b : Bool) (x : M) :
    (if a then (if b then x else 0) else 0) = if a && b then x else 0 := by
  cases a <;> cases b <;> simp

lemma length_filter_sum {α : Type} (p : α → Bool) (l : List α) :
    (l.filter p).length = (l.map (fun a => if p a then 1 else 0)).sum := by
  rw [length_as_sum, sum_filter_map]

lemma mem_sqlJoin {cs : List Customer} {os : List Order} {p : Customer × Order} :
    p ∈ sqlJoin cs os ↔ p.1 ∈ cs ∧ p.2 ∈ os ∧ p.2.mobile_number = p.1.mobile_number := by
  rw [sqlJoin, List.mem_flatMap]
  constructor
  · rintro ⟨c, hc, hmem⟩
    rw [List.mem_map] at hmem
    obtain ⟨o, ho, rfl⟩ := hmem
    rw [ordersFor, List.mem_filter] at ho
    exact ⟨hc, ho.1, by simpa using ho.2⟩
  · rintro ⟨h1, h2, h3⟩
    refine ⟨p.1, h1, ?_⟩
    rw [List.mem_map]
    refine ⟨p.2, ?_, rfl⟩
    rw [ordersFor, List.mem_filter]
    exact ⟨h2, by simpa using h3⟩

lemma mem_pandasMerged {cs : List Customer} {os : List Order} {q : Order × Customer} :
    q ∈ pandasMergedRegional cs os ↔
      q.1 ∈ os ∧ q.2 ∈ cs ∧ q.2.mobile_number = q.1.mobile_number := by
  rw [pandasMergedRegional, List.mem_flatMap]
  constructor
  · rintro ⟨o, ho, hmem⟩
    rw [List.mem_map] at hmem
    obtain ⟨c, hc, rfl⟩ := hmem
    rw [List.mem_filter] at hc
    exact ⟨ho, hc.1, by simpa using hc.2⟩
  · rintro ⟨h1, h2, h3⟩
    refine ⟨q.1, h1, ?_⟩
    rw [List.mem_map]
    refine ⟨q.2, ?_, rfl⟩
    rw [List.mem_filter]
    exact ⟨h2, by simpa using h3⟩

lemma sqlGroup_eq (cs : List Customer) (os : List Order) (k : String) :
    (sqlJoin cs os).filter (fun p => p.1.region == k) =
      (cs.filter (fun c => c.region == k)).flatMap
        (fun c => (ordersFor os c.mobile_number).map (fun o => (c, o))) := by
  have hit := flatMap_ite (fun c => c.region == k)
    (fun c => (ordersFor os c.mobile_number).map (fun o => (c, o))) cs
  rw [sqlJoin, List.filter_flatMap, ← hit]
  apply flatMap_congr
  intro c _
  rw [List.filter_map]
  by_cases h : (c.region == k) = true
  · rw [if_pos h]
    have hfe : List.filter ((fun p : Customer × Order => p.1.region == k) ∘ fun o => (c, o))
        (ordersFor os c.mobile_number) = ordersFor os c.mobile_number :=
      List.filter_eq_self.mpr (fun a _ => h)
    rw [hfe]
  · rw [if_neg h]
    have hfe : List.filter ((fun p : Customer × Order => p.1.region == k) ∘ fun o => (c, o))
        (ordersFor os c.mobile_number) = [] :=
      List.filter_eq_nil_iff.mpr (fun a _ => by simpa using h)
    rw [hfe]
    rfl

lemma pandasGroup_eq (cs : List Customer) (os : List Order) (k : String) :
    (pandasMergedRegional cs os).filter (fun p => p.2.region == k) =
      os.flatMap (fun o =>
        (cs.filter (fun c => (c.region == k) && (c.mobile_number == o.mobile_number))).map
          (fun c => (o, c))) := by
  rw [pandasMergedRegional, List.filter_flatMap]
  apply flatMap_congr
  intro o _
  rw [List.filter_map, List.filter_filter]
  simp

/-- The central double-counting identity: summing a per-order weight over the
    region group gives the same result on the customer-major SQL join and on
    the order-major pandas merge. -/
lemma regional_group_sum {M : Type} [AddCommMonoid M] (cs : List Customer) (os : List Order)
    (k : String) (v : Order → M) :
    ((((sqlJoin cs os).filter (fun p => p.1.region == k)).map (fun p => v p.2)).sum) =
    ((((pandasMergedRegional cs os).filter (fun p => p.2.region == k)).map
      (fun p => v p.1)).sum) := by
  rw [sqlGroup_eq, pandasGroup_eq, List.map_flatMap, List.map_flatMap,
    sum_flatMapM, sum_flatMapM]
  have hL : ∀ c : Customer,
      ((((ordersFor os c.mobile_number).map (fun o => (c, o))).map (fun p => v p.2)).sum) =
      (os.map (fun o => if o.mobile_number == c.mobile_number then v o else 0)).sum := by
    intro c
    rw [List.map_map]
    rw [show ((fun p : Customer × Order => v p.2) ∘ (fun o => (c, o))) = fun o => v o from rfl]
    rw [ordersFor, sum_filter_map]
  have hR : ∀ o : Order,
      ((((cs.filter (fun c => (c.region == k) && (c.mobile_number == o.mobile_number))).map
        (fun c => (o, c))).map (fun p => v p.1)).sum) =
      (cs.map (fun c =>
        if (c.region == k) && (c.mobile_number == o.mobile_number) then v o else 0)).sum := by
    intro o
    rw [List.map_map]
    rw [show ((fun p : Order × Customer => v p.1) ∘ (fun c => (o, c))) = fun _ => v o from rfl]
    rw [sum_filter_map]
  rw [List.map_congr_left (fun c _ => hL c), List.map_congr_left (fun o _ => hR o)]
  rw [sum_filter_map]
  rw [List.map_congr_left (fun c (_ : c ∈ cs) =>
    ite_sum_map (c.region == k) (fun o => if o.mobile_number == c.mobile_number then v o else 0) os)]
  rw [sum_comm_list (fun c o =>
    if c.region == k then (if o.mobile_number == c.mobile_number then v o else 0) else 0) cs os]
  apply congrArg List.sum
  apply List.map_congr_left
  intro o _
  apply congrArg List.sum
  apply List.map_congr_left
  intro c _
  have hbeq : (o.mobile_number == c.mobile_number) = (c.mobile_number == o.mobile_number) := by
    rcases h : (c.mobile_number == o.mobile_number) with _ | _
    · rw [beq_eq_false_iff_ne] at h
      exact beq_eq_false_iff_ne.mpr (Ne.symm h)
    · rw [beq_iff_eq] at h
      exact beq_iff_eq.mpr h.symm
  rw [ite_and_ite, hbeq]

lemma regional_oc_eq (cs : List Customer) (os : List Order) (k : String) :
    ((sqlJoin cs os).filter (fun p => p.1.region == k)).length =
    ((pandasMergedRegional cs os).filter (fun p => p.2.region == k)).length := by
  rw [length_as_sum, length_as_sum]
  exact regional_group_sum cs os k (fun _ => 1)

lemma regional_rev_eq (cs : List Customer) (os : List Order) (k : String) :
    sumAmounts (((sqlJoin cs os).filter (fun p => p.1.region == k)).map Prod.snd) =
    sumAmounts (((pandasMergedRegional cs os).filter (fun p => p.2.region == k)).map Prod.fst) := by
  rw [sumAmounts, sumAmounts, List.map_map, List.map_map]
  exact regional_group_sum cs os k (fun o => o.total_amount)

lemma regional_keys_perm (cs : List Customer) (os : List Order) :
    List.Perm (keysFA (fun p : Customer × Order => p.1.region) (sqlJoin cs os))
      (keysFA (fun p : Order × Customer => p.2.region) (pandasMergedRegional cs os)) := by
  apply (List.perm_ext_iff_of_nodup nodup_dedupF nodup_dedupF).mpr
  intro k
  rw [mem_dedupF, mem_dedupF, List.mem_map, List.mem_map]
  constructor
  · rintro ⟨p, hp, rfl⟩
    obtain ⟨h1, h2, h3⟩ := mem_sqlJoin.mp hp
    exact ⟨(p.2, p.1), mem_pandasMerged.mpr ⟨h2, h1, h3.symm⟩, rfl⟩
  · rintro ⟨q, hq, rfl⟩
    obtain ⟨h1, h2, h3⟩ := mem_pandasMerged.mp hq
    exact ⟨(q.2, q.1), mem_sqlJoin.mpr ⟨h2, h1, h3.symm⟩, rfl⟩

lemma regional_cc_sql (cs : List Customer) (os : List Order) (k : String)
    (hId : (cs.map (fun c => c.customer_id)).Nodup) :
    (dedupF (((sqlJoin cs os).filter (fun p => p.1.region == k)).map
      (fun p => p.1.customer_id))).length =
    (cs.filter (regionHasOrder os k)).length := by
  rw [dedupF_length_eq_card]
  have hset : (((sqlJoin cs os).filter (fun p => p.1.region == k)).map
      (fun p => p.1.customer_id)).toFinset =
      ((cs.filter (regionHasOrder os k)).map (fun c => c.customer_id)).toFinset := by
    ext i
    rw [List.mem_toFinset, List.mem_toFinset, List.mem_map, List.mem_map]
    constructor
    · rintro ⟨p, hp, rfl⟩
      rw [List.mem_filter] at hp
      obtain ⟨h1, h2, h3⟩ := mem_sqlJoin.mp hp.1
      refine ⟨p.1, ?_, rfl⟩
      rw [List.mem_filter]
      refine ⟨h1, ?_⟩
      rw [regionHasOrder]
      have hne : ordersFor os p.1.mobile_number ≠ [] :=
        ordersFor_ne_nil.mpr ⟨p.2, h2, h3⟩
      rcases hh : ordersFor os p.1.mobile_number with _ | _
      · exact absurd hh hne
      · simpa using hp.2
    · rintro ⟨c, hc, rfl⟩
      rw [List.mem_filter, regionHasOrder] at hc
      obtain ⟨hc1, hc2⟩ := hc
      rw [Bool.and_eq_true] at hc2
      have hne : ordersFor os c.mobile_number ≠ [] := by
        intro hnil
        rw [hnil] at hc2
        simpa using hc2.2
      obtain ⟨o, ho, hom⟩ := ordersFor_ne_nil.mp hne
      refine ⟨(c, o), ?_, rfl⟩
      rw [List.mem_filter]
      exact ⟨mem_sqlJoin.mpr ⟨hc1, ho, hom⟩, hc2.1⟩
  rw [hset, List.toFinset_card_of_nodup, List.length_map]
  exact hId.sublist (List.Sublist.map _ (List.filter_sublist cs))

lemma regional_cc_pandas (cs : List Customer) (os : List Order) (k : String)
    (hMob : (cs.map (fun c => c.mobile_number)).Nodup) :
    (dedupF (((pandasMergedRegional cs os).filter (fun p => p.2.region == k)).map
      (fun p => p.1.mobile_number))).length =
    (cs.filter (regionHasOrder os k)).length := by
  rw [dedupF_length_eq_card]
  have hset : (((pandasMergedRegional cs os).filter (fun p => p.2.region == k)).map
      (fun p => p.1.mobile_number)).toFinset =
      ((cs.filter (regionHasOrder os k)).map (fun c => c.mobile_number)).toFinset := by
    ext m
    rw [List.mem_toFinset, List.mem_toFinset, List.mem_map, List.mem_map]
    constructor
    · rintro ⟨q, hq, rfl⟩
      rw [List.mem_filter] at hq
      obtain ⟨h1, h2, h3⟩ := mem_pandasMerged.mp hq.1
      refine ⟨q.2, ?_, h3⟩
      rw [List.mem_filter]
      refine ⟨h2, ?_⟩
      rw [regionHasOrder]
      have hne : ordersFor os q.2.mobile_number ≠ [] :=
        ordersFor_ne_nil.mpr ⟨q.1, h1, h3.symm⟩
      rcases hh : ordersFor os q.2.mobile_number with _ | _
      · exact absurd hh hne
      · simpa using hq.2
    · rintro ⟨c, hc, rfl⟩
      rw [List.mem_filter, regionHasOrder] at hc
      obtain ⟨hc1, hc2⟩ := hc
      rw [Bool.and_eq_true] at hc2
      have hne : ordersFor os c.mobile_number ≠ [] := by
        intro hnil
        rw [hnil] at hc2
        simpa using hc2.2
      obtain ⟨o, ho, hom⟩ := ordersFor_ne_nil.mp hne
      refine ⟨(o, c), ?_, hom⟩
      rw [List.mem_filter]
      exact ⟨mem_pandasMerged.mpr ⟨ho, hc1, hom.symm⟩, hc2.1⟩
  rw [hset, List.toFinset_card_of_nodup, List.length_map]
  exact hMob.sublist (List.Sublist.map _ (List.filter_sublist cs))

lemma pandasRegionalRows_eq (cs : List Customer) (os : List Order) :
    pandasRegionalRows cs os =
      (keysFA (fun p : Order × Customer => p.2.region) (pandasMergedRegional cs os)).map
        (regRowOf cs os) := rfl

lemma sqlRegionalBase_map_eq (cs : List Customer) (os : List Order)
    (hId : (cs.map (fun c => c.customer_id)).Nodup)
    (hMob : (cs.map (fun c => c.mobile_number)).Nodup) :
    (sqlRegionalBase cs os).map (fun a : RegAgg =>
      (⟨a.region, a.customer_count, a.order_count,
        if a.total = 0 then 0 else round2 a.total,
        if a.total / (a.order_count : ℚ) = 0 then 0
        else round2 (a.total / (a.order_count : ℚ))⟩ : RegionalRow)) =
    (keysFA (fun p : Customer × Order => p.1.region) (sqlJoin cs os)).map (regRowOf cs os) := by
  simp only [sqlRegionalBase, List.map_map]
  apply List.map_congr_left
  intro k _
  have hcc := (regional_cc_sql cs os k hId).trans (regional_cc_pandas cs os k hMob).symm
  have hoc := regional_oc_eq cs os k
  have hrev := regional_rev_eq cs os k
  simp only [Function.comp_apply, regRowOf]
  rw [ite_round2_collapse, ite_round2_collapse, hcc, hoc, hrev]

/-- The SQL and pandas regional-revenue backends return the same rows up to
    order, given unique customer ids and mobiles. -/
lemma sqlRegional_perm_pandasRegional (cs : List Customer) (os : List Order)
    (hId : (cs.map (fun c => c.customer_id)).Nodup)
    (hMob : (cs.map (fun c => c.mobile_number)).Nodup) :
    List.Perm (sqlRegional cs os) (pandasRegional cs os) := by
  unfold sqlRegional pandasRegional
  refine List.Perm.trans (List.Perm.map _ (sortB_perm regAggDesc (sqlRegionalBase cs os))) ?_
  refine List.Perm.trans ?_ ((sortB_perm regRowDesc (pandasRegionalRows cs os)).symm)
  rw [sqlRegionalBase_map_eq cs os hId hMob, pandasRegionalRows_eq]
  exact (regional_keys_perm cs os).map (regRowOf cs os)

/-- C6: the repeat-customers KPI joins Customer to Order on `mobile_number`
    and keeps exactly the customers with joined order count strictly greater
    than 1: the SQL and pandas backends return the same rows; every returned
    row carries a count above 1 that equals the customer's joined order
    count and stems from a customer of the snapshot; every customer with at
    least 2 joined orders is returned; and the rows are ordered descending
    by order count. -/
theorem repeat_customers_contract (cs : List Customer) (os : List Order) :
    sqlRepeat cs os = pandasRepeat cs os ∧
    (∀ r ∈ sqlRepeat cs os,
      1 < r.order_count ∧
      r.order_count = (ordersFor os r.mobile_number).length ∧
      ∃ c ∈ cs, r = ⟨c.customer_id, c.customer_name, c.mobile_number, c.region,
        (ordersFor os c.mobile_number).length⟩) ∧
    (∀ c ∈ cs, 1 < (ordersFor os c.mobile_number).length →
      (⟨c.customer_id, c.customer_name, c.mobile_number, c.region,
        (ordersFor os c.mobile_number).length⟩ : RepeatRow) ∈ sqlRepeat cs os) ∧
    (sqlRepeat cs os).Pairwise (fun a b => b.order_count ≤ a.order_count) := by
  refine ⟨sqlRepeat_eq_pandasRepeat cs os, ?_, ?_, ?_⟩
  · intro r hr
    have hr' : r ∈ sqlRepeatBase cs os :=
      (sortB_perm repeatDesc (sqlRepeatBase cs os)).mem_iff.mp hr
    simp only [sqlRepeatBase, List.mem_filterMap] at hr'
    obtain ⟨c, hc, hfc⟩ := hr'
    by_cases h : 1 < (ordersFor os c.mobile_number).length
    · rw [if_pos h] at hfc
      obtain rfl : r = ⟨c.customer_id, c.customer_name, c.mobile_number, c.region,
          (ordersFor os c.mobile_number).length⟩ := (Option.some.inj hfc).symm
      exact ⟨h, rfl, c, hc, rfl⟩
    · rw [if_neg h] at hfc
      exact absurd hfc (by simp)
  · intro c hc h
    have hmem : (⟨c.customer_id, c.customer_name, c.mobile_number, c.region,
        (ordersFor os c.mobile_number).length⟩ : RepeatRow) ∈ sqlRepeatBase cs os := by
      simp only [sqlRepeatBase, List.mem_filterMap]
      exact ⟨c, hc, by rw [if_pos h]⟩
    exact (sortB_perm repeatDesc (sqlRepeatBase cs os)).mem_iff.mpr hmem
  · have htot : ∀ a b : RepeatRow, repeatDesc a b = true ∨ repeatDesc b a = true := by
      intro a b
      rcases Nat.le_total b.order_count a.order_count with h | h
      · left; simp [repeatDesc, h]
      · right; simp [repeatDesc, h]
    have htrans : ∀ a b c : RepeatRow, repeatDesc a b = true → repeatDesc b c = true →
        repeatDesc a c = true := by
      intro a b c h1 h2
      simp only [repeatDesc, decide_eq_true_eq] at h1 h2 ⊢
      omega
    rw [sqlRepeat]
    exact (sortB_pairwise repeatDesc htot htrans (sqlRepeatBase cs os)).imp
      (fun h => by simpa [repeatDesc] using h)

/-- C6 witness: in the scenario snapshot Amit has two orders and appears in
    the result with count 2. -/
theorem repeat_customers_contract_witness :
    1 < (ordersFor scOrders "9876543210").length ∧
    (⟨1, "Amit", "9876543210", "North", (ordersFor scOrders "9876543210").length⟩ : RepeatRow)
      ∈ sqlRepeat scCustomers scOrders :=
  ⟨by decide, (repeat_customers_contract scCustomers scOrders).2.2.1
    ⟨1, "Amit", "9876543210", "North"⟩ (by decide) (by decide)⟩

/-- C7: for every snapshot, cutoff (standing for `now - N days`) and
    `limit`, in both the SQL and the pandas backend: the top-spenders KPI
    keeps the orders at or after the cutoff, groups them by mobile,
    aggregates count, rounded sum and mean, and the maximum order date
    formatted as a plain date, inner-joins to Customer, sorts descending by
    total spent and truncates to `limit`.  Concretely: each backend returns
    at most `limit` rows, descending in `total_spent`; every returned row of
    either backend is the rounded aggregate of a snapshot customer's
    non-empty recent group, whose formatted date is the group's maximal
    order date; every customer with a non-empty recent group aggregates into
    each backend's pre-truncation result; and in each backend a
    truncated-away aggregate never outspends a kept row. -/
theorem top_spenders_contract (cs : List Customer) (os : List Order) (cutoff : DateTime)
    (limit : Nat) :
    (sqlTop cs os cutoff limit).length ≤ limit ∧
    (pandasTop cs os cutoff limit).length ≤ limit ∧
    (sqlTop cs os cutoff limit).Pairwise (fun a b => b.total_spent ≤ a.total_spent) ∧
    (pandasTop cs os cutoff limit).Pairwise (fun a b => b.total_spent ≤ a.total_spent) ∧
    (∀ r, (r ∈ sqlTop cs os cutoff limit ∨ r ∈ pandasTop cs os cutoff limit) → ∃ c ∈ cs,
      recentFor os cutoff c.mobile_number ≠ [] ∧
      r = topRowOf ⟨c, (recentFor os cutoff c.mobile_number).length,
        sumAmounts (recentFor os cutoff c.mobile_number),
        dtMax ((recentFor os cutoff c.mobile_number).map (fun o => o.order_date_time))⟩ ∧
      dtMax ((recentFor os cutoff c.mobile_number).map (fun o => o.order_date_time)) ∈
        (recentFor os cutoff c.mobile_number).map (fun o => o.order_date_time) ∧
      ∀ d ∈ (recentFor os cutoff c.mobile_number).map (fun o => o.order_date_time),
        lexLe d.key (dtMax ((recentFor os cutoff c.mobile_number).map
          (fun o => o.order_date_time))).key = true) ∧
    (∀ c ∈ cs, recentFor os cutoff c.mobile_number ≠ [] →
      (⟨c, (recentFor os cutoff c.mobile_number).length,
        sumAmounts (recentFor os cutoff c.mobile_number),
        dtMax ((recentFor os cutoff c.mobile_number).map (fun o => o.order_date_time))⟩ : TopAgg)
        ∈ sqlTopBase cs os cutoff ∧
      topRowOf ⟨c, (recentFor os cutoff c.mobile_number).length,
        sumAmounts (recentFor os cutoff c.mobile_number),
        dtMax ((recentFor os cutoff c.mobile_number).map (fun o => o.order_date_time))⟩ ∈
        (pandasTopBase cs os cutoff).map topRowOf) ∧
    (∀ a ∈ sqlTopBase cs os cutoff,
      (∀ r ∈ sqlTop cs os cutoff limit, r ≠ topRowOf a) →
      (sqlTop cs os cutoff limit).length = limit ∧
      ∀ r ∈ sqlTop cs os cutoff limit, round2 a.total ≤ r.total_spent) ∧
    (∀ a ∈ pandasTopBase cs os cutoff,
      (∀ r ∈ pandasTop cs os cutoff limit, r ≠ topRowOf a) →
      (pandasTop cs os cutoff limit).length = limit ∧
      ∀ r ∈ pandasTop cs os cutoff limit, round2 a.total ≤ r.total_spent) := by
  have hPtake : pandasTop cs os cutoff limit =
      (sortB topRowDesc ((pandasTopBase cs os cutoff).map topRowOf)).take limit := rfl
  have hbase : ∀ a ∈ sqlTopBase cs os cutoff, ∃ c ∈ cs,
      recentFor os cutoff c.mobile_number ≠ [] ∧
      a = ⟨c, (recentFor os cutoff c.mobile_number).length,
        sumAmounts (recentFor os cutoff c.mobile_number),
        dtMax ((recentFor os cutoff c.mobile_number).map (fun o => o.order_date_time))⟩ := by
    intro a ha
    simp only [sqlTopBase, List.mem_filterMap] at ha
    obtain ⟨c, hc, hfc⟩ := ha
    by_cases h : (recentFor os cutoff c.mobile_number).isEmpty = true
    · rw [if_pos h] at hfc
      exact absurd hfc (by simp)
    · rw [if_neg h] at hfc
      have hne : recentFor os cutoff c.mobile_number ≠ [] := by
        intro hnil
        rw [hnil] at h
        exact h rfl
      exact ⟨c, hc, hne, (Option.some.inj hfc).symm⟩
  refine ⟨?_, ?_, ?_, ?_, ?_, ?_, ?_, ?_⟩
  · rw [sqlTop_take_map, List.length_map, List.length_take]
    exact Nat.min_le_left _ _
  · rw [hPtake, List.length_take]
    exact Nat.min_le_left _ _
  · rw [sqlTop_take_map, List.map_take]
    refine List.Pairwise.imp ?_
      (List.Pairwise.sublist (List.take_sublist _ _) (sorted_map_topRowOf _))
    intro a b h
    rw [topRowDesc, decide_eq_true_eq] at h
    exact h
  · rw [hPtake]
    refine List.Pairwise.imp ?_ (List.Pairwise.sublist (List.take_sublist _ _)
      (sortB_pairwise topRowDesc topRowDesc_total topRowDesc_trans _))
    intro a b h
    rw [topRowDesc, decide_eq_true_eq] at h
    exact h
  · intro r hr
    have hmem : ∃ a ∈ sqlTopBase cs os cutoff, topRowOf a = r := by
      rcases hr with hr | hr
      · rw [sqlTop_take_map, List.mem_map] at hr
        obtain ⟨a, ha, hra⟩ := hr
        exact ⟨a, (sortB_perm topAggDesc _).mem_iff.mp (List.mem_of_mem_take ha), hra⟩
      · rw [hPtake] at hr
        have hr' : r ∈ (pandasTopBase cs os cutoff).map topRowOf :=
          (sortB_perm topRowDesc _).mem_iff.mp (List.mem_of_mem_take hr)
        rw [topBases_eq, List.mem_map] at hr'
        obtain ⟨a, ha, hra⟩ := hr'
        exact ⟨a, ha, hra⟩
    obtain ⟨a, ha, rfl⟩ := hmem
    obtain ⟨c, hc, hne, rfl⟩ := hbase a ha
    refine ⟨c, hc, hne, rfl, dtMax_mem ?_, dtMax_ge⟩
    intro hmap
    exact hne (List.map_eq_nil_iff.mp hmap)
  · intro c hc hne
    have hie : (recentFor os cutoff c.mobile_number).isEmpty = false := by
      rcases hh : recentFor os cutoff c.mobile_number with _ | _
      · exact absurd hh hne
      · rfl
    have hsql : (⟨c, (recentFor os cutoff c.mobile_number).length,
        sumAmounts (recentFor os cutoff c.mobile_number),
        dtMax ((recentFor os cutoff c.mobile_number).map (fun o => o.order_date_time))⟩ : TopAgg)
        ∈ sqlTopBase cs os cutoff := by
      simp only [sqlTopBase, List.mem_filterMap]
      exact ⟨c, hc, by rw [hie]; rfl⟩
    refine ⟨hsql, ?_⟩
    rw [topBases_eq]
    exact List.mem_map.mpr ⟨_, hsql, rfl⟩
  · intro a ha hnot
    have hpair := sortB_pairwise topAggDesc topAggDesc_total topAggDesc_trans
      (sqlTopBase cs os cutoff)
    have hx : a ∈ sortB topAggDesc (sqlTopBase cs os cutoff) :=
      (sortB_perm topAggDesc (sqlTopBase cs os cutoff)).mem_iff.mpr ha
    have hnx : a ∉ (sortB topAggDesc (sqlTopBase cs os cutoff)).take limit := by
      intro hmem
      refine hnot (topRowOf a) ?_ rfl
      rw [sqlTop_take_map]
      exact List.mem_map.mpr ⟨a, hmem, rfl⟩
    obtain ⟨hlen, hall⟩ := take_bound topAggDesc hpair hx hnx
    constructor
    · rw [sqlTop_take_map, List.length_map, hlen]
    · intro r hr
      rw [sqlTop_take_map, List.mem_map] at hr
      obtain ⟨y, hy, rfl⟩ := hr
      have hya := hall y hy
      simp only [topAggDesc, decide_eq_true_eq] at hya
      exact round2_mono hya
  · intro a ha hnot
    have hpair := sortB_pairwise topRowDesc topRowDesc_total topRowDesc_trans
      ((pandasTopBase cs os cutoff).map topRowOf)
    have hx : topRowOf a ∈ sortB topRowDesc ((pandasTopBase cs os cutoff).map topRowOf) :=
      (sortB_perm topRowDesc _).mem_iff.mpr (List.mem_map.mpr ⟨a, ha, rfl⟩)
    have hnx : topRowOf a ∉
        (sortB topRowDesc ((pandasTopBase cs os cutoff).map topRowOf)).take limit := by
      intro hmem
      refine hnot (topRowOf a) ?_ rfl
      rw [hPtake]
      exact hmem
    obtain ⟨hlen, hall⟩ := take_bound topRowDesc hpair hx hnx
    constructor
    · rw [hPtake]
      exact hlen
    · intro r hr
      rw [hPtake] at hr
      have hra := hall r hr
      simp only [topRowDesc, decide_eq_true_eq] at hra
      exact hra

/-- C7 witness: in the scenario snapshot Amit's recent group is non-empty,
    his aggregate enters the SQL base, and at most 10 rows come back. -/
theorem top_spenders_contract_witness :
    recentFor scOrders scCutoff "9876543210" ≠ [] ∧
    (⟨⟨1, "Amit", "9876543210", "North"⟩, (recentFor scOrders scCutoff "9876543210").length,
      sumAmounts (recentFor scOrders scCutoff "9876543210"),
      dtMax ((recentFor scOrders scCutoff "9876543210").map
        (fun o => o.order_date_time))⟩ : TopAgg) ∈ sqlTopBase scCustomers scOrders scCutoff ∧
    (sqlTop scCustomers scOrders scCutoff 10).length ≤ 10 := by
  have hne : recentFor scOrders scCutoff "9876543210" ≠ [] := by decide
  have h := top_spenders_contract scCustomers scOrders scCutoff 10
  exact ⟨hne, (h.2.2.2.2.2.1 ⟨1, "Amit", "9876543210", "North"⟩ (by decide) hne).1, h.1⟩

lemma monthlyAsc_total : ∀ a b : MonthlyRow, monthlyAsc a b = true ∨ monthlyAsc b a = true := by
  intro a b
  simp only [monthlyAsc, Bool.or_eq_true, Bool.and_eq_true, decide_eq_true_eq]
  omega

lemma monthlyAsc_trans : ∀ a b c : MonthlyRow,
    monthlyAsc a b = true → monthlyAsc b c = true → monthlyAsc a c = true := by
  intro a b c h1 h2
  simp only [monthlyAsc, Bool.or_eq_true, Bool.and_eq_true, decide_eq_true_eq] at h1 h2 ⊢
  omega

lemma pandasMonthly_keys_nodup (os : List Order) :
    ((pandasMonthly os).map (fun r => (r.year, r.month))).Nodup := by
  have hperm : List.Perm
      ((pandasMonthly os).map (fun r => (r.year, r.month)))
      (((keysFA ym os).map (fun k => (⟨k.1, k.2, (ordersInYM os k).length,
        round2 (sumAmounts (ordersInYM os k))⟩ : MonthlyRow))).map
          (fun r => (r.year, r.month))) :=
    List.Perm.map _ (sortB_perm monthlyAsc _)
  refine hperm.nodup_iff.mpr ?_
  rw [List.map_map]
  have hcomp : ((fun r : MonthlyRow => (r.year, r.month)) ∘
      (fun k : Nat × Nat => (⟨k.1, k.2, (ordersInYM os k).length,
        round2 (sumAmounts (ordersInYM os k))⟩ : MonthlyRow))) = id := by
    funext k
    rfl
  rw [hcomp, List.map_id]
  exact nodup_dedupF

/-- The monthly rows carry pairwise-distinct `(year, month)` keys in
    strictly ascending order, so the ascending sequence is unique: any
    correct sort of the same rows produces it, whatever its tie behaviour. -/
lemma pandasMonthly_strictAsc (os : List Order) :
    (pandasMonthly os).Pairwise (fun a b =>
      a.year < b.year ∨ (a.year = b.year ∧ a.month < b.month)) := by
  have h1 : (pandasMonthly os).Pairwise (fun a b => monthlyAsc a b = true) :=
    sortB_pairwise monthlyAsc monthlyAsc_total monthlyAsc_trans _
  have h2 : (pandasMonthly os).Pairwise
      (fun a b => (a.year, a.month) ≠ (b.year, b.month)) :=
    List.pairwise_map.mp (pandasMonthly_keys_nodup os)
  refine (h1.and h2).imp ?_
  intro a b hab
  obtain ⟨hle, hne⟩ := hab
  simp only [monthlyAsc, Bool.or_eq_true, Bool.and_eq_true, decide_eq_true_eq] at hle
  rw [Ne, Prod.mk.injEq] at hne
  omega

/-- C1: over a fixed snapshot, a fixed cutoff and partitions that flatten to
    the snapshot, the backends agree in every tie-robust sense — the source
    sorts (`ORDER BY ... DESC`, `sort_values`) leave the order of equal keys
    unspecified, so only order-insensitive agreement, or order on strictly
    sorted keys, transfers to the program.  Repeat customers: SQL, pandas
    and dask return the same rows up to order (each descending by count,
    proved at C6).  Monthly trends: the `(year, month)` keys are strictly
    ascending, hence duplicate-free, so the ascending sequence is unique and
    all three backends return it.  Regional revenue: under the data model's
    uniqueness invariants (unique `customer_id` and `mobile_number`) SQL
    returns the same rows as pandas up to order, and dask the same rows as
    pandas.  Top spenders: when the rounded totals are pairwise distinct
    both sort keys are strictly descending, the truncated sequence is
    unique, and the three backends return it. -/
theorem kpi_backends_agree (cs : List Customer) (os : List Order)
    (csParts : List (List Customer)) (osParts : List (List Order))
    (cutoff : DateTime) (limit : Nat)
    (hcs : csParts.flatMap id = cs) (hos : osParts.flatMap id = os) :
    (List.Perm (sqlRepeat cs os) (pandasRepeat cs os) ∧
      List.Perm (daskRepeat csParts osParts) (pandasRepeat cs os)) ∧
    ((pandasMonthly os).Pairwise (fun a b =>
        a.year < b.year ∨ (a.year = b.year ∧ a.month < b.month)) ∧
      sqlMonthly os = pandasMonthly os ∧ daskMonthly osParts = pandasMonthly os) ∧
    (((cs.map (fun c => c.customer_id)).Nodup → (cs.map (fun c => c.mobile_number)).Nodup →
        List.Perm (sqlRegional cs os) (pandasRegional cs os)) ∧
      List.Perm (daskRegional csParts osParts) (pandasRegional cs os)) ∧
    (((sqlTopBase cs os cutoff).map (fun a => round2 a.total)).Nodup →
      sqlTop cs os cutoff limit = pandasTop cs os cutoff limit ∧
      daskTop csParts osParts cutoff limit = pandasTop cs os cutoff limit) := by
  subst hcs hos
  refine ⟨⟨?_, ?_⟩, ⟨pandasMonthly_strictAsc _, sqlMonthly_eq_pandasMonthly _, rfl⟩,
    ⟨fun hId hMob => sqlRegional_perm_pandasRegional _ _ hId hMob, ?_⟩,
    fun hTop => ⟨sqlTop_eq_pandasTop hTop, rfl⟩⟩
  · rw [sqlRepeat_eq_pandasRepeat]
  · rw [daskRepeat_eq_pandasRepeat]
  · exact List.Perm.refl _

/-- C1 counterexample: two customers whose single recent orders total
    `10.001` and `10.004` — distinct unrounded keys, equal after rounding.
    The SQL top-1 keeps the unrounded maximum (customer 2); the pandas
    backend sorts the already-rounded totals, where the two rows tie, and
    keeps customer 1. The truncated sequences differ in every identity
    field, not only in order. -/
theorem kpi_rounded_tie_breaks_identity :
    sqlTop cexCustomers cexOrders cexCutoff 1 ≠ pandasTop cexCustomers cexOrders cexCutoff 1 ∧
    List.Perm (sqlRegional cexCustomers cexOrders) (pandasRegional cexCustomers cexOrders) := by
  constructor
  · decide!
  · exact sqlRegional_perm_pandasRegional _ _ (by decide) (by decide)

/-- C1 witness: the scenario snapshot split into two partitions satisfies
    the flatten, uniqueness and tie-freeness hypotheses, and the backends
    agree on it. -/
theorem kpi_backends_agree_witness :
    ((sqlTopBase scCustomers scOrders scCutoff).map (fun a => round2 a.total)).Nodup ∧
    (scCustomers.map (fun c => c.customer_id)).Nodup ∧
    (scCustomers.map (fun c => c.mobile_number)).Nodup ∧
    List.Perm (sqlRepeat scCustomers scOrders) (pandasRepeat scCustomers scOrders) ∧
    sqlMonthly scOrders = pandasMonthly scOrders ∧
    List.Perm (sqlRegional scCustomers scOrders) (pandasRegional scCustomers scOrders) ∧
    sqlTop scCustomers scOrders scCutoff 10 = pandasTop scCustomers scOrders scCutoff 10 ∧
    List.Perm (daskRepeat [scCustomers.take 2, scCustomers.drop 2]
      [scOrders.take 3, scOrders.drop 3]) (pandasRepeat scCustomers scOrders) := by
  have hTop : ((sqlTopBase scCustomers scOrders scCutoff).map
      (fun a => round2 a.total)).Nodup := by decide!
  have hId : (scCustomers.map (fun c => c.customer_id)).Nodup := by decide
  have hMob : (scCustomers.map (fun c => c.mobile_number)).Nodup := by decide
  have h := kpi_backends_agree scCustomers scOrders
    [scCustomers.take 2, scCustomers.drop 2] [scOrders.take 3, scOrders.drop 3]
    scCutoff 10 rfl rfl
  exact ⟨hTop, hId, hMob, h.1.1, h.2.1.2.1, h.2.2.1.1 hId hMob, (h.2.2.2 hTop).1, h.1.2⟩

end Akasa
